import Mathlib

/-!
Verification development for the identity hash index of AeonProfiler
(src/Inc/Hash.h, template class CHash).

The C++ code is shallowly embedded as follows:

* machine pointers and 64-bit words are represented as `Nat`, with wraparound
  arithmetic made explicit via reduction modulo `2^64` (`U64`);
* `unsigned long` (32-bit on the MSVC target) results are reduced modulo `2^32`;
* the bucket array `volatile Hash_t** HashTable` is a `List (List Hash_t)`:
  one list of chain nodes per bucket, in chain (`Next`) order;
* a `Hash_t` node keeps its `key` and its `value` (`T*`, `none` for `nullptr`);
  the `Next` pointer is the list structure itself;
* the recycling cursor (`OldHashTable` / `OldHashTableFreeRemaining`) is an
  `Option RecCursor` holding the next free byte address and the remaining
  byte count; `none` models the nulled-out pointer.  The old bucket array
  base address is represented as byte offset 0, which is pointer-aligned,
  exactly as the allocator (`AllocateBytes(..., sizeof(void*))`) guarantees;
* on the x64 target `sizeof(Hash_t) = 24` and `sizeof(void*) = 8`.
-/

/-- 2^64, the modulus of `unsigned long long` arithmetic. -/
def U64 : Nat := 18446744073709551616

/-- 2^32, the modulus of `unsigned long` (32-bit on the MSVC target). -/
def U32 : Nat := 4294967296

/-- Wrapping 64-bit subtraction `a - b` for `a b < 2^64`. -/
def sub64 (a b : Nat) : Nat := (a + (U64 - b)) % U64

/-- `CHash::HashPointer` (Hash.h lines 152-174): the Jenkins-style 96-bit mix
over three 64-bit words seeded with 0x9e3779b9, applied to the pointer value,
with the final word truncated to `unsigned long` (32 bits). -/
def HashPointer (p : Nat) : Nat :=
  let a : Nat := (0x9e3779b9 + p) % U64
  let b : Nat := 0x9e3779b9
  let c : Nat := 0
  let a := sub64 a b
  let a := sub64 a c
  let a := a ^^^ (c >>> 13)
  let b := sub64 b c
  let b := sub64 b a
  let b := b ^^^ ((a <<< 8) % U64)
  let c := sub64 c a
  let c := sub64 c b
  let c := c ^^^ (b >>> 13)
  let a := sub64 a b
  let a := sub64 a c
  let a := a ^^^ (c >>> 12)
  let b := sub64 b c
  let b := sub64 b a
  let b := b ^^^ ((a <<< 16) % U64)
  let c := sub64 c a
  let c := sub64 c b
  let c := c ^^^ (b >>> 5)
  let a := sub64 a b
  let a := sub64 a c
  let a := a ^^^ (c >>> 3)
  let b := sub64 b c
  let b := sub64 b a
  let b := b ^^^ ((a <<< 10) % U64)
  let c := sub64 c a
  let c := sub64 c b
  let c := c ^^^ (b >>> 15)
  c % U32

/-- One collision-chain node (`CHash::Hash_t`): the hashed pointer `key` and
the caller-owned `value` pointer (`none` models `nullptr`).  The `Next` chain
pointer is represented by the enclosing list. -/
structure Hash_t where
  key : Nat
  value : Option Nat
  deriving DecidableEq, Repr

/-- `sizeof(Hash_t)` on the x64 target: three 8-byte pointer fields. -/
def sizeofHash_t : Nat := 24

/-- `sizeof(void*)` on the x64 target. -/
def sizeofPtr : Nat := 8

/-- The recycling cursor: `OldHashTable` (next free byte address of the
superseded bucket array) and `OldHashTableFreeRemaining`. -/
structure RecCursor where
  addr : Nat
  remaining : Nat
  deriving DecidableEq, Repr

/-- Where the storage of a newly inserted node came from: the recycled old
bucket array, or the backing allocator (`HashAllocator->AllocateBytes`). -/
inductive AllocSource where
  | recycled (addr : Nat)
  | backing
  deriving DecidableEq, Repr

/-- The mutable state of one `CHash` instance. -/
structure CHashState where
  HashTableSize : Nat
  HashTable : List (List Hash_t)
  OldHashTable : Option RecCursor
  NumUsedSlots : Nat
  MaxListLength : Nat
  NumTotalRecords : Nat
  deriving DecidableEq, Repr

/-- The state built by the constructor `CHash(alloc, size)` with a non-null
allocator and a positive size: a zeroed bucket array of the given length. -/
def initState (size : Nat) : CHashState :=
  { HashTableSize := size
    HashTable := List.replicate size []
    OldHashTable := none
    NumUsedSlots := 0
    MaxListLength := 0
    NumTotalRecords := 0 }

/-- `CHash::AllocateFromOldHashTable` (Hash.h lines 176-199): returns the
current cursor position as the new node storage, advances the cursor to the
next pointer-aligned address past one `Hash_t`, and clears the cursor when the
remaining bytes after that advance cannot hold another node.  The `size_t`
subtraction is wrapping (`sub64`), exactly as in the source. -/
def AllocateFromOldHashTable (cur : RecCursor) : Nat × Option RecCursor :=
  let FreePointer := cur.addr
  let Alignment := sizeofPtr
  let pAlignedFreePointer := ((FreePointer + sizeofHash_t + Alignment - 1) / Alignment) * Alignment
  let AlignedOffset := pAlignedFreePointer - FreePointer
  let remaining := sub64 cur.remaining AlignedOffset
  if sizeofHash_t ≤ remaining then
    (FreePointer, some { addr := pAlignedFreePointer, remaining := remaining })
  else
    (FreePointer, none)

/-- The allocation-source selection in `CHash::LookupPointer` (lines 232-241):
use the recycling cursor when it is active, the backing allocator otherwise.
Returns the source of the new node storage and the updated cursor. -/
def allocNode (st : CHashState) : AllocSource × Option RecCursor :=
  match st.OldHashTable with
  | some cur =>
      let r := AllocateFromOldHashTable cur
      (AllocSource.recycled r.1, r.2)
  | none => (AllocSource.backing, none)

/-- The chain walk of `CHash::LookupPointer` (lines 211-228): visits nodes in
chain order, incrementing the running chain length and raising `MaxListLength`
at each visited node, stopping at the first node whose key matches.
Returns the found node (if any) and the updated `MaxListLength`. -/
def walk (chain : List Hash_t) (k : Nat) (len maxL : Nat) : Option Hash_t × Nat :=
  match chain with
  | [] => (none, maxL)
  | n :: rest =>
      let len1 := len + 1
      let maxL1 := if maxL < len1 then len1 else maxL
      if n.key = k then (some n, maxL1)
      else walk rest k len1 maxL1

/-- The plain re-lookup loop of `CHash::LookupPointer` after a resize
(lines 281-289): first node of the chain whose key matches, no statistics
updates. -/
def chainFind (chain : List Hash_t) (k : Nat) : Option Hash_t :=
  match chain with
  | [] => none
  | n :: rest => if n.key = k then some n else chainFind rest k

/-- Migration of one node in `CHash::IncreaseHashTableSize` (lines 311-354):
rehash the key against the current (doubled) size, walk the target chain to
its end updating `MaxListLength`, relink the node at the tail (chain head if
the bucket is empty, bumping `NumUsedSlots`), and count it in
`NumTotalRecords`. -/
def migrateNode (st : CHashState) (node : Hash_t) : CHashState :=
  let h := HashPointer node.key % st.HashTableSize
  let chain := st.HashTable.getD h []
  { st with
    HashTable := st.HashTable.set h (chain ++ [node])
    NumUsedSlots := st.NumUsedSlots + (if chain.isEmpty then 1 else 0)
    MaxListLength := max st.MaxListLength chain.length
    NumTotalRecords := st.NumTotalRecords + 1 }

/-- `CHash::IncreaseHashTableSize` (lines 298-356): record the old array as
the recycling window (`oldSize * sizeof(Hash_t*)` bytes at its base address,
represented as offset 0), double the table size, allocate a fresh zeroed
bucket array, reset the statistics, and migrate every node of every old
bucket, in old-bucket order then old-chain order. -/
def IncreaseHashTableSize (st : CHashState) : CHashState :=
  let OldHashTableSize := st.HashTableSize
  let nodes := st.HashTable.flatten
  let start : CHashState :=
    { HashTableSize := OldHashTableSize * 2
      HashTable := List.replicate (OldHashTableSize * 2) []
      OldHashTable := some { addr := 0, remaining := OldHashTableSize * sizeofPtr }
      NumUsedSlots := 0
      MaxListLength := 0
      NumTotalRecords := 0 }
  nodes.foldl migrateNode start

/-- The state just after `CHash::LookupPointer` links a fresh node for an
absent key (lines 230-263), before the resize check: the node (key set, value
null) is appended to its bucket chain, `NumUsedSlots` is bumped when the
bucket was empty, `NumTotalRecords` is incremented, `MaxListLength` carries
the update made by the failed walk, and the recycling cursor advances if it
served the allocation. -/
def insertNode (st : CHashState) (k : Nat) : CHashState :=
  let hash := HashPointer k % st.HashTableSize
  let chain := st.HashTable.getD hash []
  { st with
    HashTable := st.HashTable.set hash (chain ++ [{ key := k, value := none }])
    OldHashTable := (allocNode st).2
    NumUsedSlots := st.NumUsedSlots + (if chain.isEmpty then 1 else 0)
    MaxListLength := (walk chain k 0 st.MaxListLength).2
    NumTotalRecords := st.NumTotalRecords + 1 }

/-- The resize trigger of `CHash::LookupPointer` (lines 268-270), evaluated on
the post-insert statistics.  `(unsigned int)((float)HashTableSize * 0.8f)`
equals `4 * HashTableSize / 5` in natural-number arithmetic for every table
size below 2^24 (the float product is then below the rounding granularity of
its exact value, whose fractional part is at least 0.2 for the sizes the
doubling sequence produces), and `probe_average > 5.0f` with
`probe_average = (float)NumTotalRecords / (float)NumUsedSlots` is
`NumTotalRecords > 5 * NumUsedSlots`. -/
def ResizeNeeded (st : CHashState) : Prop :=
  4 * st.HashTableSize / 5 < st.NumUsedSlots ∨
  5 * st.NumUsedSlots < st.NumTotalRecords ∨
  10 < st.MaxListLength

instance (st : CHashState) : Decidable (ResizeNeeded st) := by
  unfold ResizeNeeded; infer_instance

/-- Everything `CHash::LookupPointer` produces in one call: the state after
the call, whether the key was already present, the contents of the returned
value slot (`&pHashRecord->value`), whether `IncreaseHashTableSize` ran,
whether the post-resize re-lookup fell into the `assert(false)` branch, and
where the storage of a newly inserted node came from (`none` when no node was
inserted). -/
structure StepResult where
  state : CHashState
  found : Bool
  slotValue : Option Nat
  didResize : Bool
  assertFailed : Bool
  allocSource : Option AllocSource
  deriving DecidableEq, Repr

/-- `CHash::LookupPointer` (Hash.h lines 201-296). -/
def LookupPointer (st : CHashState) (k : Nat) : StepResult :=
  let hash := HashPointer k % st.HashTableSize
  let chain := st.HashTable.getD hash []
  let w := walk chain k 0 st.MaxListLength
  match w.1 with
  | some n =>
      { state := { st with MaxListLength := w.2 }
        found := true
        slotValue := n.value
        didResize := false
        assertFailed := false
        allocSource := none }
  | none =>
      let src := (allocNode st).1
      let st1 := insertNode st k
      if ResizeNeeded st1 then
        let st2 := IncreaseHashTableSize st1
        let rehash := HashPointer k % st2.HashTableSize
        match chainFind (st2.HashTable.getD rehash []) k with
        | some n =>
            { state := st2
              found := false
              slotValue := n.value
              didResize := true
              assertFailed := false
              allocSource := some src }
        | none =>
            { state := st2
              found := false
              slotValue := none
              didResize := true
              assertFailed := true
              allocSource := some src }
      else
        { state := st1
          found := false
          slotValue := none
          didResize := false
          assertFailed := false
          allocSource := some src }

/-- Drive `LookupPointer` over a list of keys, counting how many of the calls
triggered `IncreaseHashTableSize`. -/
def insertAll (st : CHashState) (ks : List Nat) : CHashState × Nat :=
  ks.foldl
    (fun p k =>
      let r := LookupPointer p.1 k
      (r.state, p.2 + (if r.didResize then 1 else 0)))
    (st, 0)

/-- The record a lookup of `k` would return without inserting: the first node
with key `k` in the bucket selected by `HashPointer k` under the current
size. -/
def findRecord (st : CHashState) (k : Nat) : Option Hash_t :=
  chainFind (st.HashTable.getD (HashPointer k % st.HashTableSize) []) k

/-- `CHash::CopyHashToArray` (Hash.h lines 75-134).  The polymorphic value
capabilities are environments: `getNum v` models `v->GetNumRecordsToCopy()`
and `getCopy v` models `v->GetArrayCopy(...)` for the record a `value` pointer
designates.  Returns the collected array (`none` for a null array pointer) and
`OutArraySize`.  `allocPresent` models a non-null `InCopyAllocator`, and the
non-empty bucket list models a non-null `HashTable`.  In shallow mode the
collected entry is the raw value pointer itself (`getD 0` exposes the stored
pointer bits, `0` for `nullptr`). -/
def CopyHashToArray (getNum : Option Nat → Nat) (getCopy : Option Nat → Nat)
    (st : CHashState) (allocPresent : Bool) (bCopyMemberHashTables : Bool) :
    Option (List Nat) × Nat :=
  if allocPresent = true ∧ st.HashTable ≠ [] ∧ st.NumTotalRecords ≠ 0 then
    let nodes := st.HashTable.flatten
    let NumTotalRecordsToCopy := (nodes.map (fun n => getNum n.value)).sum
    if NumTotalRecordsToCopy ≠ 0 then
      (some (nodes.filterMap (fun n =>
          if getNum n.value ≠ 0 then
            some (if bCopyMemberHashTables then getCopy n.value else n.value.getD 0)
          else none)),
        NumTotalRecordsToCopy)
    else
      (none, 0)
  else
    (none, 0)

/-- All keys stored in the table, in bucket order then chain order. -/
def keysOf (st : CHashState) : List Nat :=
  st.HashTable.flatten.map Hash_t.key

/-- Every node reachable from bucket `i` hashes, under the current table
size, to `i`. -/
def BucketCorrect (st : CHashState) : Prop :=
  ∀ i < st.HashTable.length, ∀ n ∈ st.HashTable.getD i [], HashPointer n.key % st.HashTableSize = i

/-- The bucket array has the advertised length and is non-trivial. -/
def TableOk (st : CHashState) : Prop :=
  st.HashTable.length = st.HashTableSize ∧ 0 < st.HashTableSize

/-- The running statistics agree with the table contents: `NumUsedSlots`
counts the non-empty buckets and `NumTotalRecords` counts the nodes. -/
def StatsOk (st : CHashState) : Prop :=
  st.NumUsedSlots = st.HashTable.countP (fun b => !b.isEmpty) ∧
  st.NumTotalRecords = st.HashTable.flatten.length

/-- The full structural invariant of a live `CHash`. -/
def HashInv (st : CHashState) : Prop :=
  TableOk st ∧ BucketCorrect st ∧ (keysOf st).Nodup ∧ StatsOk st

/-- States reachable by the public mutating interface: construction with a
non-null allocator and a positive initial size, `LookupPointer`, and
`IncreaseHashTableSize`. -/
inductive Reachable : CHashState → Prop where
  | ctor (size : Nat) (h : 0 < size) : Reachable (initState size)
  | lookup (st : CHashState) (k : Nat) (h : Reachable st) :
      Reachable (LookupPointer st k).state
  | resize (st : CHashState) (h : Reachable st) :
      Reachable (IncreaseHashTableSize st)

instance (st : CHashState) : Decidable (TableOk st) := by
  unfold TableOk; infer_instance

instance (st : CHashState) : Decidable (BucketCorrect st) := by
  unfold BucketCorrect; infer_instance

instance (st : CHashState) : Decidable (StatsOk st) := by
  unfold StatsOk; infer_instance

instance (st : CHashState) : Decidable (HashInv st) := by
  unfold HashInv; infer_instance

/-- The chain node `LookupPointer` creates for key `k` (value slot null). -/
def mkNode (k : Nat) : Hash_t := { key := k, value := none }

/-- The nodes created by inserting the given keys, in order. -/
def nodesOfKeys (ks : List Nat) : List Hash_t := ks.map mkNode

/-- A state in which all records of the listed keys sit in the single bucket
`b` of a size-`s` table, in insertion order, with the statistics the insertion
trace of `LookupPointer` produces for an always-colliding key sequence. -/
def CollState (b : Nat) (ks : List Nat) (s : Nat) (st : CHashState) : Prop :=
  st.HashTableSize = s ∧
  st.HashTable = (List.replicate s ([] : List Hash_t)).set b (nodesOfKeys ks) ∧
  st.NumUsedSlots = (if ks.isEmpty then 0 else 1) ∧
  st.NumTotalRecords = ks.length ∧
  st.MaxListLength = ks.length - 1

/-- Seven concrete pointer keys whose buckets under `HashPointer` modulo 8
are pairwise distinct (buckets 5, 2, 6, 1, 3, 0, 7). -/
def keys7 : List Nat := [0, 1, 2, 3, 4, 8, 14]

/-- Twelve concrete distinct pointer keys whose `HashPointer` values are all
congruent (to 586) modulo 1024, so they share one bucket at every table size
the doubling sequence 8, 16, ..., 1024 reaches. -/
def keys12 : List Nat :=
  [1, 1083, 1739, 2916, 5318, 6445, 8253, 8296, 10870, 11985, 13220, 13679]

/-- An index state whose recycling cursor window holds exactly one more node
(24 of 24 bytes): the next recycled allocation must retire the cursor. -/
def exhaustedCursorState : CHashState :=
  { HashTableSize := 8
    HashTable := List.replicate 8 []
    OldHashTable := some { addr := 0, remaining := 24 }
    NumUsedSlots := 0
    MaxListLength := 0
    NumTotalRecords := 0 }

/-- A small concrete well-formed state: one record, key 5, populated with
value pointer 42, sitting in its correct bucket of a size-8 table. -/
def populatedState : CHashState :=
  { HashTableSize := 8
    HashTable := (List.replicate 8 []).set (HashPointer 5 % 8) [{ key := 5, value := some 42 }]
    OldHashTable := none
    NumUsedSlots := 1
    MaxListLength := 1
    NumTotalRecords := 1 }

/-! ### List-level helper lemmas -/

theorem getD_set_self (l : List (List Hash_t)) (i : Nat) (c : List Hash_t)
    (h : i < l.length) : (l.set i c).getD i [] = c := by
  simp [List.getD_eq_getElem?_getD, List.getElem?_set_self h]

theorem getD_set_ne (l : List (List Hash_t)) (i j : Nat) (c : List Hash_t)
    (h : i ≠ j) : (l.set i c).getD j [] = l.getD j [] := by
  simp [List.getD_eq_getElem?_getD, List.getElem?_set_ne h]

theorem getD_replicate_nil (m j : Nat) :
    (List.replicate m ([] : List Hash_t)).getD j [] = [] := by
  rcases Nat.lt_or_ge j m with h | h
  · simp [List.getD_eq_getElem?_getD, List.getElem?_replicate, h]
  · simp [List.getD_eq_getElem?_getD, List.getElem?_replicate, Nat.not_lt.mpr h]

theorem set_replicate_nil (s b : Nat) :
    (List.replicate s ([] : List Hash_t)).set b [] = List.replicate s [] := by
  induction s generalizing b with
  | zero => rfl
  | succ m ih =>
      cases b with
      | zero => simp [List.replicate_succ]
      | succ b2 => simp [List.replicate_succ, ih b2]

theorem flatten_replicate_nil (m : Nat) :
    (List.replicate m ([] : List Hash_t)).flatten = [] := by
  induction m with
  | zero => rfl
  | succ j ih => simp [List.replicate_succ, ih]

theorem countP_replicate_nil (m : Nat) :
    (List.replicate m ([] : List Hash_t)).countP (fun b => !b.isEmpty) = 0 := by
  rw [List.countP_eq_zero]
  intro a ha
  rw [List.mem_replicate] at ha
  simp [ha.2]

theorem flatten_replicate_set (m b : Nat) (c : List Hash_t) (h : b < m) :
    ((List.replicate m ([] : List Hash_t)).set b c).flatten = c := by
  induction m generalizing b with
  | zero => omega
  | succ j ih =>
      cases b with
      | zero => simp [List.replicate_succ, flatten_replicate_nil]
      | succ b2 =>
          simp only [List.replicate_succ, List.set_cons_succ, List.flatten_cons,
            List.nil_append]
          exact ih b2 (by omega)

theorem mem_flatten_getD (l : List (List Hash_t)) (n : Hash_t) :
    n ∈ l.flatten ↔ ∃ j, j < l.length ∧ n ∈ l.getD j [] := by
  rw [List.mem_flatten]
  constructor
  · rintro ⟨c, hc, hn⟩
    obtain ⟨j, hj, hcj⟩ := List.mem_iff_getElem.mp hc
    exact ⟨j, hj, by rw [List.getD_eq_getElem l [] hj, hcj]; exact hn⟩
  · rintro ⟨j, hj, hn⟩
    refine ⟨l.getD j [], ?_, hn⟩
    rw [List.getD_eq_getElem l [] hj]
    exact List.getElem_mem hj

theorem flatten_set_append (l : List (List Hash_t)) (i : Nat) (x : Hash_t)
    (h : i < l.length) :
    ((l.set i (l.getD i [] ++ [x])).flatten).Perm (l.flatten ++ [x]) := by
  induction l generalizing i with
  | nil => simp at h
  | cons a t ih =>
      cases i with
      | zero =>
          simp only [List.getD_cons_zero, List.set_cons_zero, List.flatten_cons,
            List.append_assoc]
          exact List.Perm.append_left a (List.perm_append_comm)
      | succ j =>
          simp only [List.getD_cons_succ, List.set_cons_succ, List.flatten_cons,
            List.append_assoc]
          exact List.Perm.append_left a (ih j (by simpa using h))

theorem countP_set_append (l : List (List Hash_t)) (i : Nat) (x : Hash_t)
    (h : i < l.length) :
    (l.set i (l.getD i [] ++ [x])).countP (fun b => !b.isEmpty) =
      l.countP (fun b => !b.isEmpty) + (if (l.getD i []).isEmpty then 1 else 0) := by
  rw [List.countP_set _ _ _ _ h, List.getD_eq_getElem l [] h]
  have hx : (l[i] ++ [x]).isEmpty = false := by
    rcases l[i] with _ | _ <;> rfl
  by_cases he : l[i].isEmpty
  · have : (fun b => !b.isEmpty) l[i] = false := by simp [he]
    simp [this, hx, he]
  · have hpos : 0 < l.countP (fun b => !b.isEmpty) := by
      rw [List.countP_pos_iff]
      exact ⟨l[i], List.getElem_mem h, by simp [he]⟩
    have hb : l[i].isEmpty = false := by
      rcases hb2 : l[i].isEmpty with _ | _
      · rfl
      · exact absurd hb2 he
    simp [hb, hx]
    omega

/-! ### Chain search and walk lemmas -/

theorem chainFind_eq_none (c : List Hash_t) (k : Nat) :
    chainFind c k = none ↔ ∀ n ∈ c, n.key ≠ k := by
  induction c with
  | nil => simp [chainFind]
  | cons a t ih =>
      by_cases h : a.key = k
      · simp [chainFind, h]
      · simp [chainFind, h, ih]

theorem chainFind_some (c : List Hash_t) (k : Nat) (n : Hash_t)
    (h : chainFind c k = some n) : n ∈ c ∧ n.key = k := by
  induction c with
  | nil => simp [chainFind] at h
  | cons a t ih =>
      by_cases ha : a.key = k
      · rw [chainFind, if_pos ha, Option.some.injEq] at h
        subst h
        exact ⟨List.mem_cons_self a t, ha⟩
      · rw [chainFind, if_neg ha] at h
        obtain ⟨hm, hk⟩ := ih h
        exact ⟨List.mem_cons_of_mem a hm, hk⟩

theorem chainFind_isSome (c : List Hash_t) (k : Nat) :
    (chainFind c k).isSome = true ↔ ∃ n ∈ c, n.key = k := by
  induction c with
  | nil => simp [chainFind]
  | cons a t ih =>
      by_cases ha : a.key = k
      · rw [chainFind, if_pos ha]
        exact iff_of_true rfl ⟨a, List.mem_cons_self a t, ha⟩
      · rw [chainFind, if_neg ha, ih]
        constructor
        · rintro ⟨n, hn, hk⟩
          exact ⟨n, List.mem_cons_of_mem a hn, hk⟩
        · rintro ⟨n, hn, hk⟩
          rcases List.mem_cons.mp hn with rfl | hnt
          · exact absurd hk ha
          · exact ⟨n, hnt, hk⟩

theorem chainFind_of_mem_nodup (c : List Hash_t) (k : Nat) (n : Hash_t)
    (hnd : (c.map Hash_t.key).Nodup) (hm : n ∈ c) (hk : n.key = k) :
    chainFind c k = some n := by
  induction c with
  | nil => simp at hm
  | cons a t ih =>
      rw [List.map_cons, List.nodup_cons] at hnd
      rcases List.mem_cons.mp hm with rfl | hmt
      · rw [chainFind, if_pos hk]
      · by_cases ha : a.key = k
        · exfalso
          apply hnd.1
          rw [ha, ← hk]
          exact List.mem_map.mpr ⟨n, hmt, rfl⟩
        · rw [chainFind, if_neg ha]
          exact ih hnd.2 hmt

theorem walk_fst (c : List Hash_t) (k : Nat) :
    ∀ len maxL, (walk c k len maxL).1 = chainFind c k := by
  induction c with
  | nil => intro len maxL; rfl
  | cons a t ih =>
      intro len maxL
      by_cases h : a.key = k
      · simp [walk, chainFind, h]
      · simp [walk, chainFind, h, ih]

theorem walk_none_snd (c : List Hash_t) (k : Nat) :
    ∀ len maxL, len ≤ maxL → (∀ n ∈ c, n.key ≠ k) →
      (walk c k len maxL).2 = max maxL (len + c.length) := by
  induction c with
  | nil =>
      intro len maxL h _
      simp [walk]
      omega
  | cons a t ih =>
      intro len maxL h ha
      have ha1 : a.key ≠ k := ha a (List.mem_cons_self a t)
      rw [walk]
      simp only [if_neg ha1]
      rw [ih (len + 1) (if maxL < len + 1 then len + 1 else maxL)
        (by split <;> omega) (fun n hn => ha n (List.mem_cons_of_mem a hn))]
      simp only [List.length_cons]
      split <;> omega

/-! ### Migration lemmas -/

theorem bucketAppend_correct (l : List (List Hash_t)) (size b : Nat) (x : Hash_t)
    (hlen : l.length = size) (hpos : 0 < size) (hb : b = HashPointer x.key % size)
    (hbc : ∀ i < l.length, ∀ n ∈ l.getD i [], HashPointer n.key % size = i) :
    ∀ i < (l.set b (l.getD b [] ++ [x])).length,
      ∀ n ∈ (l.set b (l.getD b [] ++ [x])).getD i [], HashPointer n.key % size = i := by
  intro i hi n hn
  rw [List.length_set] at hi
  by_cases hib : i = b
  · subst hib
    rw [getD_set_self _ _ _ (by rw [hlen, hb]; exact Nat.mod_lt _ hpos)] at hn
    rcases List.mem_append.mp hn with h1 | h2
    · exact hbc i hi n h1
    · rw [List.mem_singleton] at h2
      subst h2
      rw [hb]
  · rw [getD_set_ne _ _ _ _ (fun hh => hib hh.symm)] at hn
    exact hbc i hi n hn

theorem migrateNode_size (st : CHashState) (n : Hash_t) :
    (migrateNode st n).HashTableSize = st.HashTableSize := rfl

theorem migrateNode_cursor (st : CHashState) (n : Hash_t) :
    (migrateNode st n).OldHashTable = st.OldHashTable := rfl

theorem migrateNode_table (st : CHashState) (n : Hash_t) :
    (migrateNode st n).HashTable =
      st.HashTable.set (HashPointer n.key % st.HashTableSize)
        (st.HashTable.getD (HashPointer n.key % st.HashTableSize) [] ++ [n]) := rfl

theorem migrateNode_tableOk (st : CHashState) (n : Hash_t) (ht : TableOk st) :
    TableOk (migrateNode st n) := by
  obtain ⟨hlen, hpos⟩ := ht
  exact ⟨by rw [migrateNode_table, List.length_set, hlen, migrateNode_size], hpos⟩

theorem migrateNode_bucketCorrect (st : CHashState) (n : Hash_t) (ht : TableOk st)
    (hbc : BucketCorrect st) : BucketCorrect (migrateNode st n) := by
  obtain ⟨hlen, hpos⟩ := ht
  rw [BucketCorrect, migrateNode_table, migrateNode_size]
  exact bucketAppend_correct st.HashTable st.HashTableSize _ n hlen hpos rfl hbc

theorem migrateNode_flatten_perm (st : CHashState) (n : Hash_t) (ht : TableOk st) :
    ((migrateNode st n).HashTable.flatten).Perm (st.HashTable.flatten ++ [n]) := by
  obtain ⟨hlen, hpos⟩ := ht
  rw [migrateNode_table]
  exact flatten_set_append _ _ _ (by rw [hlen]; exact Nat.mod_lt _ hpos)

theorem migrateNode_statsOk (st : CHashState) (n : Hash_t) (ht : TableOk st)
    (hs : StatsOk st) : StatsOk (migrateNode st n) := by
  obtain ⟨hlen, hpos⟩ := ht
  obtain ⟨hslots, hrec⟩ := hs
  have hblt : HashPointer n.key % st.HashTableSize < st.HashTable.length := by
    rw [hlen]; exact Nat.mod_lt _ hpos
  constructor
  · show st.NumUsedSlots + _ = _
    rw [migrateNode_table, countP_set_append _ _ _ hblt, hslots]
  · show st.NumTotalRecords + 1 = _
    rw [(migrateNode_flatten_perm st n ⟨hlen, hpos⟩).length_eq, List.length_append,
      hrec, List.length_singleton]

theorem foldMigrate_size (ns : List Hash_t) :
    ∀ st, (ns.foldl migrateNode st).HashTableSize = st.HashTableSize := by
  induction ns with
  | nil => intro st; rfl
  | cons a t ih => intro st; rw [List.foldl_cons, ih, migrateNode_size]

theorem foldMigrate_cursor (ns : List Hash_t) :
    ∀ st, (ns.foldl migrateNode st).OldHashTable = st.OldHashTable := by
  induction ns with
  | nil => intro st; rfl
  | cons a t ih => intro st; rw [List.foldl_cons, ih, migrateNode_cursor]

theorem foldMigrate_tableOk (ns : List Hash_t) :
    ∀ st, TableOk st → TableOk (ns.foldl migrateNode st) := by
  induction ns with
  | nil => intro st h; exact h
  | cons a t ih => intro st h; rw [List.foldl_cons]; exact ih _ (migrateNode_tableOk st a h)

theorem foldMigrate_bucketCorrect (ns : List Hash_t) :
    ∀ st, TableOk st → BucketCorrect st → BucketCorrect (ns.foldl migrateNode st) := by
  induction ns with
  | nil => intro st _ h; exact h
  | cons a t ih =>
      intro st ht h
      rw [List.foldl_cons]
      exact ih _ (migrateNode_tableOk st a ht) (migrateNode_bucketCorrect st a ht h)

theorem foldMigrate_perm (ns : List Hash_t) :
    ∀ st, TableOk st →
      ((ns.foldl migrateNode st).HashTable.flatten).Perm (st.HashTable.flatten ++ ns) := by
  induction ns with
  | nil => intro st _; simp
  | cons a t ih =>
      intro st ht
      rw [List.foldl_cons]
      have h1 := ih (migrateNode st a) (migrateNode_tableOk st a ht)
      have h2 := List.Perm.append_right t (migrateNode_flatten_perm st a ht)
      have h3 := h1.trans h2
      rw [List.append_assoc] at h3
      exact h3.trans (by rw [List.singleton_append])

theorem foldMigrate_statsOk (ns : List Hash_t) :
    ∀ st, TableOk st → StatsOk st → StatsOk (ns.foldl migrateNode st) := by
  induction ns with
  | nil => intro st _ h; exact h
  | cons a t ih =>
      intro st ht h
      rw [List.foldl_cons]
      exact ih _ (migrateNode_tableOk st a ht) (migrateNode_statsOk st a ht h)

/-! ### IncreaseHashTableSize lemmas -/

theorem grow_eq_fold (st : CHashState) :
    IncreaseHashTableSize st =
      st.HashTable.flatten.foldl migrateNode
        { HashTableSize := st.HashTableSize * 2
          HashTable := List.replicate (st.HashTableSize * 2) []
          OldHashTable := some { addr := 0, remaining := st.HashTableSize * sizeofPtr }
          NumUsedSlots := 0
          MaxListLength := 0
          NumTotalRecords := 0 } := rfl

theorem grow_size (st : CHashState) :
    (IncreaseHashTableSize st).HashTableSize = st.HashTableSize * 2 := by
  rw [grow_eq_fold, foldMigrate_size]

theorem grow_tableOk (st : CHashState) (h : 0 < st.HashTableSize) :
    TableOk (IncreaseHashTableSize st) := by
  rw [grow_eq_fold]
  exact foldMigrate_tableOk _ _ ⟨by simp, by show 0 < st.HashTableSize * 2; omega⟩

theorem grow_bucketCorrect (st : CHashState) (h : 0 < st.HashTableSize) :
    BucketCorrect (IncreaseHashTableSize st) := by
  rw [grow_eq_fold]
  refine foldMigrate_bucketCorrect _ _ ⟨by simp, by show 0 < st.HashTableSize * 2; omega⟩ ?_
  intro i hi n hn
  rw [getD_replicate_nil] at hn
  simp at hn

theorem grow_perm (st : CHashState) (h : 0 < st.HashTableSize) :
    ((IncreaseHashTableSize st).HashTable.flatten).Perm st.HashTable.flatten := by
  rw [grow_eq_fold]
  have := foldMigrate_perm st.HashTable.flatten
    { HashTableSize := st.HashTableSize * 2
      HashTable := List.replicate (st.HashTableSize * 2) []
      OldHashTable := some { addr := 0, remaining := st.HashTableSize * sizeofPtr }
      NumUsedSlots := 0
      MaxListLength := 0
      NumTotalRecords := 0 } ⟨by simp, by show 0 < st.HashTableSize * 2; omega⟩
  simpa [flatten_replicate_nil] using this

theorem grow_statsOk (st : CHashState) (h : 0 < st.HashTableSize) :
    StatsOk (IncreaseHashTableSize st) := by
  rw [grow_eq_fold]
  refine foldMigrate_statsOk _ _ ⟨by simp, by show 0 < st.HashTableSize * 2; omega⟩ ?_
  constructor
  · show 0 = _
    rw [countP_replicate_nil]
  · show 0 = _
    rw [flatten_replicate_nil]
    rfl

theorem grow_nodup (st : CHashState) (h : 0 < st.HashTableSize)
    (hnd : (keysOf st).Nodup) : (keysOf (IncreaseHashTableSize st)).Nodup := by
  rw [keysOf]
  rw [((grow_perm st h).map Hash_t.key).nodup_iff]
  exact hnd

theorem grow_inv (st : CHashState) (h : HashInv st) :
    HashInv (IncreaseHashTableSize st) := by
  obtain ⟨⟨hlen, hpos⟩, hbc, hnd, hs⟩ := h
  exact ⟨grow_tableOk st hpos, grow_bucketCorrect st hpos, grow_nodup st hpos hnd,
    grow_statsOk st hpos⟩

/-! ### Insert-path lemmas -/

theorem insertNode_size (st : CHashState) (k : Nat) :
    (insertNode st k).HashTableSize = st.HashTableSize := rfl

theorem insertNode_table (st : CHashState) (k : Nat) :
    (insertNode st k).HashTable =
      st.HashTable.set (HashPointer k % st.HashTableSize)
        (st.HashTable.getD (HashPointer k % st.HashTableSize) [] ++ [mkNode k]) := rfl

theorem insertNode_records (st : CHashState) (k : Nat) :
    (insertNode st k).NumTotalRecords = st.NumTotalRecords + 1 := rfl

theorem insertNode_slots (st : CHashState) (k : Nat) :
    (insertNode st k).NumUsedSlots =
      st.NumUsedSlots +
        (if (st.HashTable.getD (HashPointer k % st.HashTableSize) []).isEmpty then 1 else 0) := rfl

theorem insertNode_cursor (st : CHashState) (k : Nat) :
    (insertNode st k).OldHashTable = (allocNode st).2 := rfl

theorem insertNode_tableOk (st : CHashState) (k : Nat) (ht : TableOk st) :
    TableOk (insertNode st k) := by
  obtain ⟨hlen, hpos⟩ := ht
  exact ⟨by rw [insertNode_table, List.length_set, hlen, insertNode_size], hpos⟩

theorem insertNode_bucketCorrect (st : CHashState) (k : Nat) (ht : TableOk st)
    (hbc : BucketCorrect st) : BucketCorrect (insertNode st k) := by
  obtain ⟨hlen, hpos⟩ := ht
  rw [BucketCorrect, insertNode_table, insertNode_size]
  exact bucketAppend_correct st.HashTable st.HashTableSize _ (mkNode k) hlen hpos rfl hbc

theorem insertNode_flatten_perm (st : CHashState) (k : Nat) (ht : TableOk st) :
    ((insertNode st k).HashTable.flatten).Perm (st.HashTable.flatten ++ [mkNode k]) := by
  obtain ⟨hlen, hpos⟩ := ht
  rw [insertNode_table]
  exact flatten_set_append _ _ _ (by rw [hlen]; exact Nat.mod_lt _ hpos)

theorem insertNode_statsOk (st : CHashState) (k : Nat) (ht : TableOk st)
    (hs : StatsOk st) : StatsOk (insertNode st k) := by
  obtain ⟨hlen, hpos⟩ := ht
  obtain ⟨hslots, hrec⟩ := hs
  have hblt : HashPointer k % st.HashTableSize < st.HashTable.length := by
    rw [hlen]; exact Nat.mod_lt _ hpos
  constructor
  · rw [insertNode_slots, insertNode_table, countP_set_append _ _ _ hblt, hslots]
  · rw [insertNode_records, (insertNode_flatten_perm st k ⟨hlen, hpos⟩).length_eq,
      List.length_append, hrec, List.length_singleton]

theorem not_mem_keys_of_findRecord_none (st : CHashState) (k : Nat)
    (hbc : BucketCorrect st) (h : findRecord st k = none) : k ∉ keysOf st := by
  intro hk
  obtain ⟨n, hn, hkey⟩ := List.mem_map.mp hk
  obtain ⟨j, hj, hjm⟩ := (mem_flatten_getD _ _).mp hn
  have hb := hbc j hj n hjm
  rw [hkey] at hb
  rw [findRecord, chainFind_eq_none] at h
  exact h n (hb ▸ hjm) hkey

theorem insertNode_nodup (st : CHashState) (k : Nat) (hinv : HashInv st)
    (h : findRecord st k = none) : (keysOf (insertNode st k)).Nodup := by
  obtain ⟨ht, hbc, hnd, hs⟩ := hinv
  have hperm := (insertNode_flatten_perm st k ht).map Hash_t.key
  rw [keysOf, hperm.nodup_iff, List.map_append]
  rw [List.nodup_append]
  refine ⟨hnd, by simp [mkNode], ?_⟩
  intro a ha hmem
  simp only [List.map_cons, List.map_nil, List.mem_singleton, mkNode] at hmem
  subst hmem
  exact not_mem_keys_of_findRecord_none st _ hbc h ha

/-! ### findRecord characterization -/

theorem findRecord_mem (st : CHashState) (k : Nat) (n : Hash_t) (ht : TableOk st)
    (h : findRecord st k = some n) : n ∈ st.HashTable.flatten ∧ n.key = k := by
  obtain ⟨hlen, hpos⟩ := ht
  obtain ⟨hm, hk⟩ := chainFind_some _ _ _ h
  refine ⟨?_, hk⟩
  rw [mem_flatten_getD]
  exact ⟨HashPointer k % st.HashTableSize, by rw [hlen]; exact Nat.mod_lt _ hpos, hm⟩

theorem chain_keys_nodup (st : CHashState) (hinv : HashInv st) (b : Nat) :
    ((st.HashTable.getD b []).map Hash_t.key).Nodup := by
  obtain ⟨⟨hlen, hpos⟩, hbc, hnd, hs⟩ := hinv
  rw [keysOf] at hnd
  by_cases hb : b < st.HashTable.length
  · have hmem : st.HashTable.getD b [] ∈ st.HashTable := by
      rw [List.getD_eq_getElem _ [] hb]
      exact List.getElem_mem hb
    have hsub := (List.sublist_flatten_of_mem hmem).map Hash_t.key
    exact List.Nodup.sublist hsub hnd
  · rw [List.getD_eq_getElem?_getD, List.getElem?_eq_none (by omega)]
    simp

theorem findRecord_of_mem (st : CHashState) (k : Nat) (n : Hash_t) (hinv : HashInv st)
    (hm : n ∈ st.HashTable.flatten) (hk : n.key = k) : findRecord st k = some n := by
  obtain ⟨j, hj, hjm⟩ := (mem_flatten_getD _ _).mp hm
  have hb := hinv.2.1 j hj n hjm
  rw [hk] at hb
  rw [findRecord]
  rw [hb]
  exact chainFind_of_mem_nodup _ _ _ (chain_keys_nodup st hinv j) hjm hk

theorem findRecord_isSome_of_mem (st : CHashState) (k : Nat) (n : Hash_t)
    (_ht : TableOk st) (hbc : BucketCorrect st) (hm : n ∈ st.HashTable.flatten)
    (hk : n.key = k) : (findRecord st k).isSome = true := by
  obtain ⟨j, hj, hjm⟩ := (mem_flatten_getD _ _).mp hm
  have hb := hbc j hj n hjm
  rw [hk] at hb
  rw [findRecord, hb, chainFind_isSome]
  exact ⟨n, hjm, hk⟩

theorem grow_findRecord (st : CHashState) (k : Nat) (hinv : HashInv st) :
    findRecord (IncreaseHashTableSize st) k = findRecord st k := by
  have hpos := hinv.1.2
  have hinv2 := grow_inv st hinv
  cases hf : findRecord st k with
  | some n =>
      obtain ⟨hm, hk⟩ := findRecord_mem st k n hinv.1 hf
      exact findRecord_of_mem _ k n hinv2 (((grow_perm st hpos).mem_iff).mpr hm) hk
  | none =>
      cases hg : findRecord (IncreaseHashTableSize st) k with
      | none => rfl
      | some m =>
          obtain ⟨hm, hk⟩ := findRecord_mem _ k m hinv2.1 hg
          have hm2 : m ∈ st.HashTable.flatten := (grow_perm st hpos).subset hm
          rw [findRecord_of_mem st k m hinv hm2 hk] at hf
          exact absurd hf (by simp)

/-! ### LookupPointer case analysis -/

theorem LookupPointer_found_eq (st : CHashState) (k : Nat) (n : Hash_t)
    (h : findRecord st k = some n) :
    LookupPointer st k =
      { state := { st with MaxListLength :=
          (walk (st.HashTable.getD (HashPointer k % st.HashTableSize) []) k 0 st.MaxListLength).2 }
        found := true
        slotValue := n.value
        didResize := false
        assertFailed := false
        allocSource := none } := by
  have hw : (walk (st.HashTable.getD (HashPointer k % st.HashTableSize) []) k 0
      st.MaxListLength).1 = some n := by
    rw [walk_fst]
    exact h
  simp only [LookupPointer, hw]

theorem LookupPointer_insert_nores (st : CHashState) (k : Nat)
    (h : findRecord st k = none) (hno : ¬ ResizeNeeded (insertNode st k)) :
    LookupPointer st k =
      { state := insertNode st k
        found := false
        slotValue := none
        didResize := false
        assertFailed := false
        allocSource := some (allocNode st).1 } := by
  have hw : (walk (st.HashTable.getD (HashPointer k % st.HashTableSize) []) k 0
      st.MaxListLength).1 = none := by
    rw [walk_fst]
    exact h
  simp only [LookupPointer, hw]
  rw [if_neg hno]

theorem LookupPointer_insert_res (st : CHashState) (k : Nat)
    (h : findRecord st k = none) (hres : ResizeNeeded (insertNode st k)) :
    (LookupPointer st k).state = IncreaseHashTableSize (insertNode st k) ∧
    (LookupPointer st k).didResize = true ∧
    (LookupPointer st k).found = false ∧
    (LookupPointer st k).allocSource = some (allocNode st).1 := by
  have hw : (walk (st.HashTable.getD (HashPointer k % st.HashTableSize) []) k 0
      st.MaxListLength).1 = none := by
    rw [walk_fst]
    exact h
  simp only [LookupPointer, hw]
  rw [if_pos hres]
  split <;> exact ⟨rfl, rfl, rfl, rfl⟩

theorem LookupPointer_res_assert (st : CHashState) (k : Nat)
    (h : findRecord st k = none) (hres : ResizeNeeded (insertNode st k))
    (hfind : (findRecord (IncreaseHashTableSize (insertNode st k)) k).isSome = true) :
    (LookupPointer st k).assertFailed = false := by
  have hw : (walk (st.HashTable.getD (HashPointer k % st.HashTableSize) []) k 0
      st.MaxListLength).1 = none := by
    rw [walk_fst]
    exact h
  simp only [LookupPointer, hw]
  rw [if_pos hres]
  split
  · rfl
  · rename_i heq
    rw [findRecord, heq] at hfind
    exact absurd hfind (by simp)

/-! ### Invariant preservation and reachability -/

theorem insertNode_inv (st : CHashState) (k : Nat) (hinv : HashInv st)
    (hf : findRecord st k = none) : HashInv (insertNode st k) :=
  ⟨insertNode_tableOk st k hinv.1,
   insertNode_bucketCorrect st k hinv.1 hinv.2.1,
   insertNode_nodup st k hinv hf,
   insertNode_statsOk st k hinv.1 hinv.2.2.2⟩

theorem lookup_state_inv (st : CHashState) (k : Nat) (hinv : HashInv st) :
    HashInv (LookupPointer st k).state := by
  cases hf : findRecord st k with
  | some n =>
      rw [LookupPointer_found_eq st k n hf]
      exact hinv
  | none =>
      by_cases hr : ResizeNeeded (insertNode st k)
      · rw [(LookupPointer_insert_res st k hf hr).1]
        exact grow_inv _ (insertNode_inv st k hinv hf)
      · rw [LookupPointer_insert_nores st k hf hr]
        exact insertNode_inv st k hinv hf

theorem initState_inv (size : Nat) (h : 0 < size) : HashInv (initState size) := by
  refine ⟨⟨by simp [initState], h⟩, ?_, ?_, ?_, ?_⟩
  · intro i hi n hn
    rw [show (initState size).HashTable = List.replicate size [] from rfl,
      getD_replicate_nil] at hn
    simp at hn
  · rw [keysOf, show (initState size).HashTable = List.replicate size [] from rfl,
      flatten_replicate_nil]
    simp
  · show 0 = _
    rw [show (initState size).HashTable = List.replicate size [] from rfl,
      countP_replicate_nil]
  · show 0 = _
    rw [show (initState size).HashTable = List.replicate size [] from rfl,
      flatten_replicate_nil]
    rfl

theorem reachable_inv (st : CHashState) (h : Reachable st) : HashInv st := by
  induction h with
  | ctor size hpos => exact initState_inv size hpos
  | lookup st k hr ih => exact lookup_state_inv st k ih
  | resize st hr ih => exact grow_inv st ih

theorem lookup_no_assert (st : CHashState) (k : Nat) (hinv : HashInv st) :
    (LookupPointer st k).assertFailed = false := by
  cases hf : findRecord st k with
  | some n => rw [LookupPointer_found_eq st k n hf]
  | none =>
      by_cases hr : ResizeNeeded (insertNode st k)
      · apply LookupPointer_res_assert st k hf hr
        have hinv1 := insertNode_inv st k hinv hf
        rw [grow_findRecord _ k hinv1]
        apply findRecord_isSome_of_mem _ k (mkNode k) hinv1.1 hinv1.2.1 ?_ rfl
        have hperm := insertNode_flatten_perm st k hinv.1
        exact hperm.symm.subset (by simp)
      · rw [LookupPointer_insert_nores st k hf hr]

/-! ### Claim theorems -/

/-- C1: every key present in the index before a call to
`IncreaseHashTableSize` is still present after any number of resizes, its
record (key and value pointer) unchanged, and `LookupPointer` on the resized
table finds that record and returns its surviving value slot contents. -/
theorem C1_resize_preserves_records (st : CHashState) (k : Nat) (n : Hash_t)
    (m : Nat) (hinv : HashInv st) (hf : findRecord st k = some n) :
    findRecord (IncreaseHashTableSize^[m] st) k = some n ∧
    (LookupPointer (IncreaseHashTableSize^[m] st) k).found = true ∧
    (LookupPointer (IncreaseHashTableSize^[m] st) k).slotValue = n.value := by
  have key : ∀ j, HashInv (IncreaseHashTableSize^[j] st) ∧
      findRecord (IncreaseHashTableSize^[j] st) k = some n := by
    intro j
    induction j with
    | zero => exact ⟨hinv, hf⟩
    | succ i ih =>
        rw [Function.iterate_succ_apply']
        exact ⟨grow_inv _ ih.1, by rw [grow_findRecord _ k ih.1]; exact ih.2⟩
  obtain ⟨hi, hfr⟩ := key m
  refine ⟨hfr, ?_, ?_⟩ <;> rw [LookupPointer_found_eq _ k n hfr]

/-- C1 witness: a concrete one-record table with a populated value slot
(key 5, value pointer 42) keeps that record, with the identical value
pointer, across a resize. -/
theorem C1_witness :
    HashInv populatedState ∧
    findRecord populatedState 5 = some { key := 5, value := some 42 } ∧
    findRecord (IncreaseHashTableSize^[1] populatedState) 5 =
      some { key := 5, value := some 42 } :=
  ⟨by decide, by decide,
   (C1_resize_preserves_records populatedState 5 { key := 5, value := some 42 } 1
     (by decide) (by decide)).1⟩

/-- C2: keys are unique in every reachable state (at most one node per key),
and `LookupPointer` on a present key reports it found, returns the value of
its unique record, allocates nothing, and leaves the table and
`NumTotalRecords` unchanged. -/
theorem C2_unique_keys_stable_lookup :
    (∀ st, Reachable st → (keysOf st).Nodup) ∧
    (∀ st k n, findRecord st k = some n →
      (LookupPointer st k).found = true ∧
      (LookupPointer st k).slotValue = n.value ∧
      (LookupPointer st k).allocSource = none ∧
      (LookupPointer st k).state.HashTable = st.HashTable ∧
      (LookupPointer st k).state.NumTotalRecords = st.NumTotalRecords) := by
  constructor
  · exact fun st h => (reachable_inv st h).2.2.1
  · intro st k n hf
    rw [LookupPointer_found_eq st k n hf]
    exact ⟨rfl, rfl, rfl, rfl, rfl⟩

/-- C2 witness: key uniqueness holds at a concrete reachable two-record
state, and a repeated lookup of key 5 in a concrete populated table returns
the populated slot without touching the table. -/
theorem C2_witness :
    (keysOf (LookupPointer (LookupPointer (initState 8) 3).state 4).state).Nodup ∧
    ((LookupPointer populatedState 5).found = true ∧
     (LookupPointer populatedState 5).slotValue = some 42 ∧
     (LookupPointer populatedState 5).allocSource = none ∧
     (LookupPointer populatedState 5).state.HashTable = populatedState.HashTable ∧
     (LookupPointer populatedState 5).state.NumTotalRecords =
       populatedState.NumTotalRecords) :=
  ⟨C2_unique_keys_stable_lookup.1 _
     (Reachable.lookup _ 4 (Reachable.lookup _ 3 (Reachable.ctor 8 (by decide)))),
   by
     have h := C2_unique_keys_stable_lookup.2 populatedState 5
       { key := 5, value := some 42 } (by decide)
     exact ⟨h.1, h.2.1, h.2.2.1, h.2.2.2.1, h.2.2.2.2⟩⟩

/-- C3: after a successful insertion of a new key the call resizes exactly
when, on the post-insert statistics, the used-slot count exceeds 80 percent
of the bucket-array length, or total records exceed 5 times the used slots,
or the longest-chain statistic exceeds 10; a lookup that finds an existing
key never resizes. -/
theorem C3_resize_trigger (st : CHashState) (k : Nat) :
    ((findRecord st k).isSome = true → (LookupPointer st k).didResize = false) ∧
    (findRecord st k = none →
      ((LookupPointer st k).didResize = true ↔
        (5 * (insertNode st k).NumUsedSlots > 4 * (insertNode st k).HashTableSize ∨
         (insertNode st k).NumTotalRecords > 5 * (insertNode st k).NumUsedSlots ∨
         (insertNode st k).MaxListLength > 10))) := by
  constructor
  · intro hs
    obtain ⟨n, hn⟩ := Option.isSome_iff_exists.mp hs
    rw [LookupPointer_found_eq st k n hn]
  · intro hf
    have hiff : ResizeNeeded (insertNode st k) ↔
        (5 * (insertNode st k).NumUsedSlots > 4 * (insertNode st k).HashTableSize ∨
         (insertNode st k).NumTotalRecords > 5 * (insertNode st k).NumUsedSlots ∨
         (insertNode st k).MaxListLength > 10) := by
      rw [ResizeNeeded]
      omega
    by_cases hr : ResizeNeeded (insertNode st k)
    · rw [(LookupPointer_insert_res st k hf hr).2.1]
      exact iff_of_true rfl (hiff.mp hr)
    · have hd : (LookupPointer st k).didResize = false := by
        rw [LookupPointer_insert_nores st k hf hr]
      rw [hd]
      exact iff_of_false (by simp) (fun hc => hr (hiff.mpr hc))

/-- C3 witness: looking up the already-present key 5 of a concrete populated
table does not resize. -/
theorem C3_witness :
    (findRecord populatedState 5).isSome = true ∧
    (LookupPointer populatedState 5).didResize = false :=
  ⟨by decide, (C3_resize_trigger populatedState 5).1 (by decide)⟩

/-- C6: in every reachable state every node reachable from bucket i hashes,
under the current table length, to i; the invariant is preserved by
`LookupPointer` and by `IncreaseHashTableSize` on any well-formed state. -/
theorem C6_bucket_invariant :
    (∀ st, Reachable st → BucketCorrect st) ∧
    (∀ st k, HashInv st → BucketCorrect (LookupPointer st k).state) ∧
    (∀ st, HashInv st → BucketCorrect (IncreaseHashTableSize st)) :=
  ⟨fun st h => (reachable_inv st h).2.1,
   fun st k h => (lookup_state_inv st k h).2.1,
   fun st h => (grow_inv st h).2.1⟩

/-- C6 witness: the bucket invariant holds at a concrete reachable state and
is preserved by a concrete resize of a concrete well-formed state. -/
theorem C6_witness :
    BucketCorrect (LookupPointer (initState 8) 9).state ∧
    HashInv populatedState ∧
    BucketCorrect (IncreaseHashTableSize populatedState) :=
  ⟨C6_bucket_invariant.1 _ (Reachable.lookup _ 9 (Reachable.ctor 8 (by decide))),
   by decide,
   C6_bucket_invariant.2.2 populatedState (by decide)⟩

/-- C8: in every reachable state, the post-resize re-lookup of the key whose
insertion triggered the resize always succeeds, so the
DebugLog/assert(false) branch at the end of `LookupPointer` is never
taken. -/
theorem C8_assert_unreachable (st : CHashState) (k : Nat) (h : Reachable st) :
    (LookupPointer st k).assertFailed = false :=
  lookup_no_assert st k (reachable_inv st h)

/-- C8 witness: no assertion failure on a concrete insert into a concrete
reachable state. -/
theorem C8_witness :
    (LookupPointer (LookupPointer (initState 8) 1).state 2).assertFailed = false :=
  C8_assert_unreachable _ 2 (Reachable.lookup _ 1 (Reachable.ctor 8 (by decide)))

/-- C10: in every reachable state a positive `NumTotalRecords` implies at
least one used slot, and after linking a new node the used-slot count is
positive, so neither probe-average division (in `PrintStats` and in the
post-insert resize check of `LookupPointer`) divides by zero. -/
theorem C10_probe_average_denominator (st : CHashState) (k : Nat)
    (h : Reachable st) :
    (0 < st.NumTotalRecords → 0 < st.NumUsedSlots) ∧
    (findRecord st k = none → 0 < (insertNode st k).NumUsedSlots) := by
  obtain ⟨⟨hlen, hpos⟩, hbc, hnd, hslots, hrec⟩ := reachable_inv st h
  constructor
  · intro hr
    rw [hslots, List.countP_pos_iff]
    rw [hrec] at hr
    have hne : st.HashTable.flatten ≠ [] := by
      intro he
      rw [he] at hr
      simp at hr
    obtain ⟨n, hn⟩ := List.exists_mem_of_ne_nil _ hne
    obtain ⟨c, hc, hnc⟩ := List.mem_flatten.mp hn
    refine ⟨c, hc, ?_⟩
    rcases c with _ | ⟨a, t⟩
    · simp at hnc
    · rfl
  · intro hf
    rw [insertNode_slots]
    by_cases he : (st.HashTable.getD (HashPointer k % st.HashTableSize) []).isEmpty = true
    · rw [if_pos he]
      omega
    · rw [if_neg he]
      rw [Bool.not_eq_true] at he
      have hcp : 0 < st.HashTable.countP (fun b => !b.isEmpty) := by
        rw [List.countP_pos_iff]
        refine ⟨st.HashTable.getD (HashPointer k % st.HashTableSize) [], ?_, by rw [he]; rfl⟩
        rw [List.getD_eq_getElem _ [] (by rw [hlen]; exact Nat.mod_lt _ hpos)]
        exact List.getElem_mem _
      rw [hslots]
      omega

/-- C10 witness: a concrete reachable one-record state has a positive record
count and a positive used-slot count. -/
theorem C10_witness :
    0 < (LookupPointer (initState 8) 5).state.NumTotalRecords ∧
    0 < (LookupPointer (initState 8) 5).state.NumUsedSlots :=
  ⟨by decide,
   (C10_probe_average_denominator _ 0
     (Reachable.lookup _ 5 (Reachable.ctor 8 (by decide)))).1 (by decide)⟩

theorem lookup_allocSource (st : CHashState) (k : Nat) (hf : findRecord st k = none) :
    (LookupPointer st k).allocSource = some (allocNode st).1 := by
  by_cases hr : ResizeNeeded (insertNode st k)
  · exact (LookupPointer_insert_res st k hf hr).2.2.2
  · rw [LookupPointer_insert_nores st k hf hr]

/-- C5 counterexample: with an active cursor at address 0 holding 24 bytes,
the remaining bytes after the aligned advance (0) are insufficient for a
node, the cursor is retired, yet the insertion is still served from the
recycled window at the prior cursor position, not from the backing
allocator as the claim states. -/
theorem C5_counterexample :
    sub64 24 ((0 + sizeofHash_t + sizeofPtr - 1) / sizeofPtr * sizeofPtr - 0) < sizeofHash_t ∧
    (AllocateFromOldHashTable { addr := 0, remaining := 24 }).2 = none ∧
    (AllocateFromOldHashTable { addr := 0, remaining := 24 }).1 = 0 ∧
    exhaustedCursorState.OldHashTable = some { addr := 0, remaining := 24 } ∧
    findRecord exhaustedCursorState 0 = none ∧
    (LookupPointer exhaustedCursorState 0).allocSource = some (AllocSource.recycled 0) ∧
    (LookupPointer exhaustedCursorState 0).allocSource ≠ some AllocSource.backing ∧
    (LookupPointer exhaustedCursorState 0).state.OldHashTable = none := by
  decide

/-- C5 amended: with the cursor active, the next pointer-aligned address past
one node is computed and the remaining count decreases by that offset; if
what remains cannot hold another node the cursor is retired, otherwise it
advances to the aligned address; in both cases the current allocation is
served from the prior cursor position, and only once the cursor is cleared do
this and all future allocations fall back to the backing allocator. -/
theorem C5_amended_recycling_cursor (cur : RecCursor) (st st2 : CHashState)
    (k k2 : Nat) (hcur : st.OldHashTable = some cur) (hf : findRecord st k = none)
    (hnc : st2.OldHashTable = none) (hf2 : findRecord st2 k2 = none) :
    (AllocateFromOldHashTable cur).1 = cur.addr ∧
    (AllocateFromOldHashTable cur).2 =
      (if sizeofHash_t ≤ sub64 cur.remaining
          ((cur.addr + sizeofHash_t + sizeofPtr - 1) / sizeofPtr * sizeofPtr - cur.addr)
       then some { addr := (cur.addr + sizeofHash_t + sizeofPtr - 1) / sizeofPtr * sizeofPtr,
                   remaining := sub64 cur.remaining
                     ((cur.addr + sizeofHash_t + sizeofPtr - 1) / sizeofPtr * sizeofPtr - cur.addr) }
       else none) ∧
    (LookupPointer st k).allocSource = some (AllocSource.recycled cur.addr) ∧
    (insertNode st k).OldHashTable = (AllocateFromOldHashTable cur).2 ∧
    (LookupPointer st2 k2).allocSource = some AllocSource.backing := by
  refine ⟨?_, ?_, ?_, ?_, ?_⟩
  · rw [AllocateFromOldHashTable]
    split <;> rfl
  · rw [AllocateFromOldHashTable]
    split <;> rfl
  · rw [lookup_allocSource st k hf, allocNode, hcur]
    show some (AllocSource.recycled (AllocateFromOldHashTable cur).1) = _
    rw [show (AllocateFromOldHashTable cur).1 = cur.addr from by
      rw [AllocateFromOldHashTable]; split <;> rfl]
  · rw [insertNode_cursor, allocNode, hcur]
  · rw [lookup_allocSource st2 k2 hf2, allocNode, hnc]

/-- C5 amended witness: the amended behavior at the concrete nearly-exhausted
cursor state and at a concrete cursor-free state. -/
theorem C5_amended_witness :
    (exhaustedCursorState.OldHashTable = some { addr := 0, remaining := 24 } ∧
     findRecord exhaustedCursorState 0 = none ∧
     (initState 8).OldHashTable = none ∧
     findRecord (initState 8) 3 = none) ∧
    ((LookupPointer exhaustedCursorState 0).allocSource =
        some (AllocSource.recycled 0) ∧
     (insertNode exhaustedCursorState 0).OldHashTable = none ∧
     (LookupPointer (initState 8) 3).allocSource = some AllocSource.backing) := by
  refine ⟨⟨by decide, by decide, by decide, by decide⟩, ?_⟩
  have h := C5_amended_recycling_cursor { addr := 0, remaining := 24 }
    exhaustedCursorState (initState 8) 0 3 (by decide) (by decide) (by decide) (by decide)
  exact ⟨h.2.2.1, by rw [h.2.2.2.1]; decide, h.2.2.2.2⟩

/-- C9: snapshot export returns a null array and size zero whenever the copy
allocator is absent or the index holds no records, in both shallow and deep
modes; otherwise the reported array size is the sum of the export-eligible
sub-record counts over all reachable values. -/
theorem C9_copy_empty_or_sum (getNum getCopy : Option Nat → Nat) (st : CHashState)
    (alloc deep : Bool) :
    ((alloc = false ∨ st.NumTotalRecords = 0) →
      CopyHashToArray getNum getCopy st alloc deep = (none, 0)) ∧
    (alloc = true → st.HashTable ≠ [] → st.NumTotalRecords ≠ 0 →
      (CopyHashToArray getNum getCopy st alloc deep).2 =
        (st.HashTable.flatten.map (fun n => getNum n.value)).sum) := by
  constructor
  · intro h
    rw [CopyHashToArray, if_neg]
    rintro ⟨h1, h2, h3⟩
    rcases h with h | h
    · rw [h] at h1
      exact absurd h1 (by simp)
    · exact h3 h
  · intro h1 h2 h3
    simp only [CopyHashToArray, if_pos (And.intro h1 (And.intro h2 h3))]
    by_cases hs : (st.HashTable.flatten.map (fun n => getNum n.value)).sum ≠ 0
    · rw [if_pos hs]
    · rw [if_neg hs]
      push_neg at hs
      rw [hs]

/-- C9 witness: export of an empty concrete index gives a null array and size
zero in deep mode, and export of a concrete populated index reports the sum
of the eligible counts. -/
theorem C9_witness :
    ((initState 8).NumTotalRecords = 0 ∧
     CopyHashToArray (fun v => v.getD 0) (fun v => v.getD 0) (initState 8) true true =
       (none, 0) ∧
     CopyHashToArray (fun v => v.getD 0) (fun v => v.getD 0) (initState 8) true false =
       (none, 0) ∧
     CopyHashToArray (fun v => v.getD 0) (fun v => v.getD 0) populatedState false true =
       (none, 0)) ∧
    (populatedState.HashTable ≠ [] ∧ populatedState.NumTotalRecords ≠ 0 ∧
     (CopyHashToArray (fun v => v.getD 0) (fun v => v.getD 0) populatedState true false).2 =
       (populatedState.HashTable.flatten.map
         (fun n => (fun v => Option.getD v 0) n.value)).sum) := by
  refine ⟨⟨by decide, ?_, ?_, ?_⟩, by decide, by decide, ?_⟩
  · exact (C9_copy_empty_or_sum (fun v => v.getD 0) (fun v => v.getD 0)
      (initState 8) true true).1 (Or.inr (by decide))
  · exact (C9_copy_empty_or_sum (fun v => v.getD 0) (fun v => v.getD 0)
      (initState 8) true false).1 (Or.inr (by decide))
  · exact (C9_copy_empty_or_sum (fun v => v.getD 0) (fun v => v.getD 0)
      populatedState false true).1 (Or.inl rfl)
  · exact (C9_copy_empty_or_sum (fun v => v.getD 0) (fun v => v.getD 0)
      populatedState true false).2 rfl (by decide) (by decide)

/-! ### insertAll bookkeeping and node-list helpers -/

theorem set_getD_self (l : List (List Hash_t)) (b : Nat) (h : b < l.length) :
    l.set b (l.getD b []) = l := by
  induction l generalizing b with
  | nil => simp at h
  | cons a t ih =>
      cases b with
      | zero => simp
      | succ j =>
          simp only [List.set_cons_succ, List.getD_cons_succ]
          rw [ih j (by simpa using h)]

theorem insertAll_acc (ks : List Nat) : ∀ (st : CHashState) (c : Nat),
    ks.foldl
      (fun p k =>
        let r := LookupPointer p.1 k
        (r.state, p.2 + (if r.didResize then 1 else 0))) (st, c) =
      ((insertAll st ks).1, c + (insertAll st ks).2) := by
  induction ks with
  | nil => intro st c; simp [insertAll]
  | cons a t ih =>
      intro st c
      rw [List.foldl_cons]
      show t.foldl _ ((LookupPointer st a).state,
        c + (if (LookupPointer st a).didResize then 1 else 0)) = _
      rw [ih]
      have hR : insertAll st (a :: t) =
          ((insertAll (LookupPointer st a).state t).1,
            (0 + (if (LookupPointer st a).didResize then 1 else 0)) +
              (insertAll (LookupPointer st a).state t).2) := by
        rw [insertAll, List.foldl_cons]
        show t.foldl _ ((LookupPointer st a).state,
          0 + (if (LookupPointer st a).didResize then 1 else 0)) = _
        rw [ih]
      rw [hR]
      congr 1
      omega

theorem insertAll_cons (st : CHashState) (a : Nat) (t : List Nat) :
    insertAll st (a :: t) =
      ((insertAll (LookupPointer st a).state t).1,
        (if (LookupPointer st a).didResize then 1 else 0) +
          (insertAll (LookupPointer st a).state t).2) := by
  rw [insertAll, List.foldl_cons]
  show t.foldl _ ((LookupPointer st a).state,
    0 + (if (LookupPointer st a).didResize then 1 else 0)) = _
  rw [insertAll_acc]
  congr 1
  omega

theorem insertAll_append (st : CHashState) (l1 l2 : List Nat) :
    insertAll st (l1 ++ l2) =
      ((insertAll (insertAll st l1).1 l2).1,
        (insertAll st l1).2 + (insertAll (insertAll st l1).1 l2).2) := by
  rw [insertAll, List.foldl_append]
  show l2.foldl _ ((insertAll st l1).1, (insertAll st l1).2) = _
  rw [insertAll_acc]

theorem nodes_no_key (l : List Nat) (k : Nat) (h : k ∉ l) :
    ∀ n ∈ nodesOfKeys l, n.key ≠ k := by
  intro n hn hk
  obtain ⟨a, ha, rfl⟩ := List.mem_map.mp hn
  rw [show (mkNode a).key = a from rfl] at hk
  subst hk
  exact h ha

theorem chainFind_nodesOfKeys_eq_none (l : List Nat) (k : Nat) (h : k ∉ l) :
    chainFind (nodesOfKeys l) k = none := by
  rw [chainFind_eq_none]
  exact nodes_no_key l k h

theorem nodesOfKeys_length (l : List Nat) : (nodesOfKeys l).length = l.length := by
  simp [nodesOfKeys]

theorem nodesOfKeys_isEmpty (l : List Nat) : (nodesOfKeys l).isEmpty = l.isEmpty := by
  cases l <;> rfl

theorem nodesOfKeys_append (l1 l2 : List Nat) :
    nodesOfKeys (l1 ++ l2) = nodesOfKeys l1 ++ nodesOfKeys l2 := by
  simp [nodesOfKeys]

theorem insertNode_eq_of_chain (st : CHashState) (k : Nat) (chain : List Hash_t)
    (hch : st.HashTable.getD (HashPointer k % st.HashTableSize) [] = chain)
    (hnm : ∀ n ∈ chain, n.key ≠ k) :
    insertNode st k =
      { st with
        HashTable := st.HashTable.set (HashPointer k % st.HashTableSize)
          (chain ++ [mkNode k])
        OldHashTable := (allocNode st).2
        NumUsedSlots := st.NumUsedSlots + (if chain.isEmpty then 1 else 0)
        MaxListLength := max st.MaxListLength chain.length
        NumTotalRecords := st.NumTotalRecords + 1 } := by
  have hw := walk_none_snd chain k 0 st.MaxListLength (Nat.zero_le _) hnm
  simp only [insertNode, hch, hw, Nat.zero_add]
  rfl

theorem findRecord_of_chain_none (st : CHashState) (k : Nat) (chain : List Hash_t)
    (hch : st.HashTable.getD (HashPointer k % st.HashTableSize) [] = chain)
    (hnm : ∀ n ∈ chain, n.key ≠ k) : findRecord st k = none := by
  rw [findRecord, hch, chainFind_eq_none]
  exact hnm

/-! ### Distinct-bucket insertion runs (scenario C4) -/

theorem foldMigrate_distinct (ns : List Hash_t) :
    ∀ st : CHashState, TableOk st →
      (∀ n ∈ ns, st.HashTable.getD (HashPointer n.key % st.HashTableSize) [] = []) →
      ns.Pairwise (fun a b =>
        HashPointer a.key % st.HashTableSize ≠ HashPointer b.key % st.HashTableSize) →
      (ns.foldl migrateNode st).NumUsedSlots = st.NumUsedSlots + ns.length ∧
      (ns.foldl migrateNode st).NumTotalRecords = st.NumTotalRecords + ns.length ∧
      (ns.foldl migrateNode st).MaxListLength = st.MaxListLength := by
  induction ns with
  | nil => intro st _ _ _; exact ⟨rfl, rfl, rfl⟩
  | cons a t ih =>
      intro st ht hemp hpw
      rw [List.foldl_cons]
      have hch := hemp a (List.mem_cons_self a t)
      have hms : (migrateNode st a).NumUsedSlots = st.NumUsedSlots + 1 := by
        show st.NumUsedSlots + (if (st.HashTable.getD
          (HashPointer a.key % st.HashTableSize) []).isEmpty then 1 else 0) = _
        rw [hch]
        simp
      have hmr : (migrateNode st a).NumTotalRecords = st.NumTotalRecords + 1 := rfl
      have hmm2 : (migrateNode st a).MaxListLength = st.MaxListLength := by
        show max st.MaxListLength (st.HashTable.getD
          (HashPointer a.key % st.HashTableSize) []).length = _
        rw [hch]
        simp
      have hemp2 : ∀ n ∈ t, (migrateNode st a).HashTable.getD
          (HashPointer n.key % (migrateNode st a).HashTableSize) [] = [] := by
        intro n hn
        rw [migrateNode_size, migrateNode_table, getD_set_ne _ _ _ _
          ((List.pairwise_cons.mp hpw).1 n hn)]
        exact hemp n (List.mem_cons_of_mem a hn)
      have hpw2 : t.Pairwise (fun x y =>
          HashPointer x.key % (migrateNode st a).HashTableSize ≠
          HashPointer y.key % (migrateNode st a).HashTableSize) := by
        simpa only [migrateNode_size] using (List.pairwise_cons.mp hpw).2
      obtain ⟨i1, i2, i3⟩ := ih (migrateNode st a) (migrateNode_tableOk st a ht) hemp2 hpw2
      refine ⟨?_, ?_, ?_⟩
      · rw [i1, hms, List.length_cons]; omega
      · rw [i2, hmr, List.length_cons]; omega
      · rw [i3, hmm2]

theorem insertAll_no_resize_distinct (ks : List Nat) :
    ∀ st : CHashState, TableOk st → st.OldHashTable = none →
      (∀ a ∈ ks, st.HashTable.getD (HashPointer a % st.HashTableSize) [] = []) →
      ks.Pairwise (fun a b =>
        HashPointer a % st.HashTableSize ≠ HashPointer b % st.HashTableSize) →
      (∀ j, j < ks.length →
        ¬ (4 * st.HashTableSize / 5 < st.NumUsedSlots + (j + 1) ∨
           5 * (st.NumUsedSlots + (j + 1)) < st.NumTotalRecords + (j + 1) ∨
           10 < st.MaxListLength)) →
      (insertAll st ks).2 = 0 ∧
      (insertAll st ks).1.HashTableSize = st.HashTableSize ∧
      (insertAll st ks).1.HashTable.length = st.HashTable.length ∧
      (insertAll st ks).1.OldHashTable = none ∧
      (insertAll st ks).1.NumUsedSlots = st.NumUsedSlots + ks.length ∧
      (insertAll st ks).1.NumTotalRecords = st.NumTotalRecords + ks.length ∧
      (insertAll st ks).1.MaxListLength = st.MaxListLength ∧
      ((insertAll st ks).1.HashTable.flatten).Perm
        (st.HashTable.flatten ++ nodesOfKeys ks) ∧
      (∀ b, (∀ a ∈ ks, HashPointer a % st.HashTableSize ≠ b) →
        (insertAll st ks).1.HashTable.getD b [] = st.HashTable.getD b []) := by
  induction ks with
  | nil =>
      intro st ht hcur hemp hpw hres
      refine ⟨rfl, rfl, rfl, hcur, by simp [insertAll], by simp [insertAll], rfl, ?_, ?_⟩
      · show (st.HashTable.flatten).Perm _
        rw [nodesOfKeys, List.map_nil, List.append_nil]
      · intro b _
        rfl
  | cons a t ih =>
      intro st ht hcur hemp hpw hres
      have hch : st.HashTable.getD (HashPointer a % st.HashTableSize) [] = [] :=
        hemp a (List.mem_cons_self a t)
      have hf : findRecord st a = none := findRecord_of_chain_none st a [] hch (by simp)
      have hins := insertNode_eq_of_chain st a [] hch (by simp)
      have halloc : (allocNode st).2 = none := by rw [allocNode, hcur]
      have h1size : (insertNode st a).HashTableSize = st.HashTableSize := insertNode_size st a
      have h1slots : (insertNode st a).NumUsedSlots = st.NumUsedSlots + 1 := by
        rw [hins]
        simp
      have h1maxL : (insertNode st a).MaxListLength = st.MaxListLength := by
        rw [hins]; simp
      have h1recs : (insertNode st a).NumTotalRecords = st.NumTotalRecords + 1 :=
        insertNode_records st a
      have h1cur : (insertNode st a).OldHashTable = none := by
        rw [insertNode_cursor, halloc]
      have h1table : (insertNode st a).HashTable =
          st.HashTable.set (HashPointer a % st.HashTableSize) [mkNode a] := by
        rw [hins]
        simp
      have h1len : (insertNode st a).HashTable.length = st.HashTable.length := by
        rw [h1table, List.length_set]
      have hnores : ¬ ResizeNeeded (insertNode st a) := by
        have h0 := hres 0 (by simp)
        rw [ResizeNeeded, h1size, h1slots, h1maxL, h1recs]
        omega
      have hstep := LookupPointer_insert_nores st a hf hnores
      have hcons := insertAll_cons st a t
      rw [hstep] at hcons
      simp only [] at hcons
      rw [if_neg (by simp)] at hcons
      have h1perm : ((insertNode st a).HashTable.flatten).Perm
          (st.HashTable.flatten ++ [mkNode a]) := insertNode_flatten_perm st a ht
      have htOk1 : TableOk (insertNode st a) := insertNode_tableOk st a ht
      have hemp2 : ∀ x ∈ t, (insertNode st a).HashTable.getD
          (HashPointer x % (insertNode st a).HashTableSize) [] = [] := by
        intro x hx
        rw [h1size, h1table, getD_set_ne _ _ _ _ ((List.pairwise_cons.mp hpw).1 x hx)]
        exact hemp x (List.mem_cons_of_mem a hx)
      have hpw2 : t.Pairwise (fun x y =>
          HashPointer x % (insertNode st a).HashTableSize ≠
          HashPointer y % (insertNode st a).HashTableSize) := by
        simpa only [h1size] using (List.pairwise_cons.mp hpw).2
      have hres2 : ∀ j, j < t.length →
          ¬ (4 * (insertNode st a).HashTableSize / 5 <
               (insertNode st a).NumUsedSlots + (j + 1) ∨
             5 * ((insertNode st a).NumUsedSlots + (j + 1)) <
               (insertNode st a).NumTotalRecords + (j + 1) ∨
             10 < (insertNode st a).MaxListLength) := by
        intro j hj
        have := hres (j + 1) (by rw [List.length_cons]; omega)
        rw [h1size, h1slots, h1maxL, h1recs]
        omega
      obtain ⟨i0, i1, i2, i3, i4, i5, i6, i7, i8⟩ :=
        ih (insertNode st a) htOk1 h1cur hemp2 hpw2 hres2
      rw [hcons]
      refine ⟨by simpa using i0, by rw [i1, h1size], by rw [i2, h1len], i3, ?_, ?_, ?_, ?_, ?_⟩
      · rw [i4, h1slots, List.length_cons]; omega
      · rw [i5, h1recs, List.length_cons]; omega
      · rw [i6, h1maxL]
      · refine i7.trans ?_
        refine (List.Perm.append_right (nodesOfKeys t) h1perm).trans ?_
        rw [List.append_assoc]
        rw [show [mkNode a] ++ nodesOfKeys t = nodesOfKeys (a :: t) from rfl]
      · intro b hb
        rw [i8 b (fun x hx => by
            rw [h1size]
            exact hb x (List.mem_cons_of_mem a hx)),
          h1table, getD_set_ne _ _ _ _ (hb a (List.mem_cons_self a t))]

set_option maxRecDepth 4000 in
/-- C4 amended: inserting 7 distinct keys with pairwise distinct buckets into
a fresh size-8 index performs no resize during the first 6 insertions, then
exactly one resize at the seventh insertion (the used-slot count 7 exceeds
the 80 percent threshold, which is 6 for a length-8 array); afterwards the
table has length 16, 7 used slots, 7 records, a longest-chain statistic of 0
(the chain walk only counts pre-existing nodes, so collision-free insertion
never raises it), and all 7 keys are retrievable. -/
theorem C4_amended_one_resize (ks : List Nat) (h7 : ks.length = 7)
    (hpw : ks.Pairwise (fun a b => HashPointer a % 8 ≠ HashPointer b % 8)) :
    (insertAll (initState 8) (ks.take 6)).2 = 0 ∧
    (insertAll (initState 8) ks).2 = 1 ∧
    (insertAll (initState 8) ks).1.HashTableSize = 16 ∧
    (insertAll (initState 8) ks).1.NumUsedSlots = 7 ∧
    (insertAll (initState 8) ks).1.NumTotalRecords = 7 ∧
    (insertAll (initState 8) ks).1.MaxListLength = 0 ∧
    (∀ a ∈ ks, (findRecord (insertAll (initState 8) ks).1 a).isSome = true) := by
  have hks6len : (ks.take 6).length = 6 := by rw [List.length_take]; omega
  have hdroplen : (ks.drop 6).length = 1 := by rw [List.length_drop]; omega
  obtain ⟨k7, hk7⟩ := List.length_eq_one.mp hdroplen
  have hsplit : ks.take 6 ++ [k7] = ks := by rw [← hk7]; exact List.take_append_drop 6 ks
  have hpwS : ((ks.take 6) ++ [k7]).Pairwise
      (fun a b => HashPointer a % 8 ≠ HashPointer b % 8) := by rw [hsplit]; exact hpw
  obtain ⟨hpw6, _, hcross⟩ := List.pairwise_append.mp hpwS
  -- run the first six insertions with the generic no-resize lemma
  obtain ⟨a0, a1, a2, a3, a4, a5, a6, a7, a8⟩ :=
    insertAll_no_resize_distinct (ks.take 6) (initState 8)
      ⟨by simp [initState], by decide⟩
      rfl
      (fun a _ => getD_replicate_nil 8 _)
      hpw6
      (by
        intro j hj
        show ¬ (4 * 8 / 5 < 0 + (j + 1) ∨ 5 * (0 + (j + 1)) < 0 + (j + 1) ∨ 10 < 0)
        rw [hks6len] at hj
        omega)
  refine ⟨a0, ?_⟩
  set S6 := (insertAll (initState 8) (ks.take 6)).1 with hS6
  have hS6size : S6.HashTableSize = 8 := a1
  have hS6len : S6.HashTable.length = 8 := by
    rw [a2]; simp [initState]
  have hS6slots : S6.NumUsedSlots = 6 := by rw [a4, hks6len]; simp [initState]
  have hS6recs : S6.NumTotalRecords = 6 := by rw [a5, hks6len]; simp [initState]
  have hS6maxL : S6.MaxListLength = 0 := a6
  have hS6tableOk : TableOk S6 := ⟨by rw [hS6len, hS6size], by rw [hS6size]; norm_num⟩
  have hS6perm : (S6.HashTable.flatten).Perm (nodesOfKeys (ks.take 6)) := by
    have := a7
    rw [show (initState 8).HashTable.flatten = [] from by
      show (List.replicate 8 ([] : List Hash_t)).flatten = []
      exact flatten_replicate_nil 8] at this
    rw [List.nil_append] at this
    exact this
  -- the seventh key sits in an untouched, hence empty, bucket
  have hb7 : S6.HashTable.getD (HashPointer k7 % S6.HashTableSize) [] = [] := by
    rw [hS6size]
    rw [a8 (HashPointer k7 % 8) (fun x hx => hcross x hx k7 (List.mem_singleton_self k7))]
    exact getD_replicate_nil 8 _
  have hf7 : findRecord S6 k7 = none := findRecord_of_chain_none S6 k7 [] hb7 (by simp)
  have hins7 := insertNode_eq_of_chain S6 k7 [] hb7 (by simp)
  set st7 := insertNode S6 k7 with hst7
  have hst7size : st7.HashTableSize = 8 := by rw [hins7]; exact hS6size
  have hst7slots : st7.NumUsedSlots = 7 := by rw [hins7]; simp [hS6slots]
  have hst7recs : st7.NumTotalRecords = 7 := by rw [hins7]; simp [hS6recs]
  have hst7maxL : st7.MaxListLength = 0 := by rw [hins7]; simp [hS6maxL]
  have hst7tableOk : TableOk st7 := insertNode_tableOk S6 k7 hS6tableOk
  have hst7perm : (st7.HashTable.flatten).Perm (nodesOfKeys ks) := by
    refine (insertNode_flatten_perm S6 k7 hS6tableOk).trans ?_
    refine (List.Perm.append_right [mkNode k7] hS6perm).trans ?_
    rw [show nodesOfKeys (ks.take 6) ++ [mkNode k7] = nodesOfKeys (ks.take 6 ++ [k7]) from by
      rw [nodesOfKeys_append]; rfl]
    rw [hsplit]
  have hres7 : ResizeNeeded st7 := by
    rw [ResizeNeeded, hst7size, hst7slots]
    left
    norm_num
  have hstep7 := LookupPointer_insert_res S6 k7 hf7 hres7
  -- total run: six clean inserts, then the resizing seventh
  have hone : insertAll S6 [k7] = ((LookupPointer S6 k7).state, 1) := by
    rw [insertAll_cons]
    rw [show insertAll (LookupPointer S6 k7).state [] = ((LookupPointer S6 k7).state, 0)
      from rfl]
    rw [hstep7.2.1]
    rfl
  have hrun : insertAll (initState 8) ks = (IncreaseHashTableSize st7, 1) := by
    rw [← hsplit, insertAll_append, ← hS6, hone, a0, hstep7.1, hst7]
    rfl
  rw [hrun]
  -- statistics of the migration, using pairwise-distinct buckets modulo 16
  have h816 : ∀ x y : Nat, HashPointer x % 16 = HashPointer y % 16 →
      HashPointer x % 8 = HashPointer y % 8 := by
    intro x y h
    have hx := Nat.mod_mod_of_dvd (HashPointer x) (by norm_num : (8:Nat) ∣ 16)
    have hy := Nat.mod_mod_of_dvd (HashPointer y) (by norm_num : (8:Nat) ∣ 16)
    rw [← hx, ← hy, h]
  have hpw16 : ks.Pairwise (fun a b => HashPointer a % 16 ≠ HashPointer b % 16) :=
    hpw.imp (fun h heq => h (h816 _ _ heq))
  have hpwNodes : (nodesOfKeys ks).Pairwise (fun a b =>
      HashPointer a.key % 16 ≠ HashPointer b.key % 16) := by
    rw [nodesOfKeys, List.pairwise_map]
    exact hpw16
  have hgrow16 : IncreaseHashTableSize st7 =
      st7.HashTable.flatten.foldl migrateNode
        { HashTableSize := 16
          HashTable := List.replicate 16 []
          OldHashTable := some { addr := 0, remaining := 64 }
          NumUsedSlots := 0
          MaxListLength := 0
          NumTotalRecords := 0 } := by
    rw [grow_eq_fold, hst7size]
    norm_num [sizeofPtr]
  have hstats := foldMigrate_distinct st7.HashTable.flatten
      { HashTableSize := 16
        HashTable := List.replicate 16 []
        OldHashTable := some { addr := 0, remaining := 64 }
        NumUsedSlots := 0
        MaxListLength := 0
        NumTotalRecords := 0 }
      ⟨by simp, by norm_num⟩
      (fun n _ => getD_replicate_nil 16 _)
      ((List.Perm.pairwise_iff (fun hxy => Ne.symm hxy) hst7perm).mpr hpwNodes)
  have hflen : st7.HashTable.flatten.length = 7 := by
    rw [hst7perm.length_eq, nodesOfKeys_length, h7]
  have hpos7 : 0 < st7.HashTableSize := by rw [hst7size]; norm_num
  refine ⟨rfl, ?_, ?_, ?_, ?_, ?_⟩
  · show (IncreaseHashTableSize st7).HashTableSize = 16
    rw [grow_size, hst7size]
  · show (IncreaseHashTableSize st7).NumUsedSlots = 7
    rw [hgrow16, hstats.1, hflen]
  · show (IncreaseHashTableSize st7).NumTotalRecords = 7
    rw [hgrow16, hstats.2.1, hflen]
  · show (IncreaseHashTableSize st7).MaxListLength = 0
    rw [hgrow16, hstats.2.2]
  · intro a ha
    show (findRecord (IncreaseHashTableSize st7) a).isSome = true
    have h1 : mkNode a ∈ nodesOfKeys ks := List.mem_map.mpr ⟨a, ha, rfl⟩
    have h2 := hst7perm.symm.subset h1
    have hmem := (grow_perm st7 hpos7).symm.subset h2
    exact findRecord_isSome_of_mem _ a (mkNode a)
      (grow_tableOk st7 hpos7) (grow_bucketCorrect st7 hpos7) hmem rfl

/-- C4 counterexample: the seven concrete keys of `keys7` produce pairwise
distinct buckets in the size-8 table, yet inserting them performs exactly one
resize (not zero) and leaves the longest-chain statistic at 0 (not 1). -/
theorem C4_counterexample :
    keys7.length = 7 ∧
    keys7.Pairwise (fun a b => HashPointer a % 8 ≠ HashPointer b % 8) ∧
    (insertAll (initState 8) keys7).2 = 1 ∧
    ¬ ((insertAll (initState 8) keys7).2 = 0) ∧
    (insertAll (initState 8) keys7).1.MaxListLength = 0 ∧
    ¬ ((insertAll (initState 8) keys7).1.MaxListLength = 1) ∧
    (insertAll (initState 8) keys7).1.NumUsedSlots = 7 := by
  decide

/-- C4 amended witness: the amended scenario at the concrete keys of
`keys7`. -/
theorem C4_amended_witness :
    (keys7.length = 7 ∧
     keys7.Pairwise (fun a b => HashPointer a % 8 ≠ HashPointer b % 8)) ∧
    ((insertAll (initState 8) (keys7.take 6)).2 = 0 ∧
     (insertAll (initState 8) keys7).2 = 1 ∧
     (insertAll (initState 8) keys7).1.HashTableSize = 16 ∧
     (insertAll (initState 8) keys7).1.NumUsedSlots = 7 ∧
     (insertAll (initState 8) keys7).1.NumTotalRecords = 7 ∧
     (insertAll (initState 8) keys7).1.MaxListLength = 0 ∧
     (∀ a ∈ keys7, (findRecord (insertAll (initState 8) keys7).1 a).isSome = true)) :=
  ⟨⟨by decide, by decide⟩, C4_amended_one_resize keys7 (by decide) (by decide)⟩

/-! ### Single-bucket collision runs (scenario C7) -/

theorem foldMigrate_samebucket (ns : List Hash_t) :
    ∀ (st : CHashState) (b : Nat) (cs : List Hash_t),
      (∀ n ∈ ns, HashPointer n.key % st.HashTableSize = b) →
      st.HashTable.getD b [] = cs → b < st.HashTable.length →
      ns.foldl migrateNode st =
        { st with
          HashTable := st.HashTable.set b (cs ++ ns)
          NumUsedSlots := st.NumUsedSlots +
            (if cs.isEmpty ∧ ns.isEmpty = false then 1 else 0)
          MaxListLength := if ns.isEmpty then st.MaxListLength
            else max st.MaxListLength (cs.length + ns.length - 1)
          NumTotalRecords := st.NumTotalRecords + ns.length } := by
  induction ns with
  | nil =>
      intro st b cs hb hcs hblt
      rw [List.foldl_nil, List.append_nil]
      have hset : st.HashTable.set b cs = st.HashTable := by
        rw [← hcs]
        exact set_getD_self _ _ hblt
      rw [hset, if_neg (by rintro ⟨h1, h2⟩; simp at h2)]
      simp
  | cons a t ih =>
      intro st b cs hb hcs hblt
      rw [List.foldl_cons]
      have hba := hb a (List.mem_cons_self a t)
      have hm : migrateNode st a = { st with
          HashTable := st.HashTable.set b (cs ++ [a])
          NumUsedSlots := st.NumUsedSlots + (if cs.isEmpty then 1 else 0)
          MaxListLength := max st.MaxListLength cs.length
          NumTotalRecords := st.NumTotalRecords + 1 } := by
        show ({ st with
          HashTable := st.HashTable.set (HashPointer a.key % st.HashTableSize)
            (st.HashTable.getD (HashPointer a.key % st.HashTableSize) [] ++ [a])
          NumUsedSlots := st.NumUsedSlots + (if (st.HashTable.getD
            (HashPointer a.key % st.HashTableSize) []).isEmpty then 1 else 0)
          MaxListLength := max st.MaxListLength
            (st.HashTable.getD (HashPointer a.key % st.HashTableSize) []).length
          NumTotalRecords := st.NumTotalRecords + 1 } : CHashState) = _
        rw [hba, hcs]
      rw [hm]
      have hb2 : ∀ n ∈ t, HashPointer n.key %
          ({ st with
              HashTable := st.HashTable.set b (cs ++ [a])
              NumUsedSlots := st.NumUsedSlots + (if cs.isEmpty then 1 else 0)
              MaxListLength := max st.MaxListLength cs.length
              NumTotalRecords := st.NumTotalRecords + 1 } : CHashState).HashTableSize = b :=
        fun n hn => hb n (List.mem_cons_of_mem a hn)
      have hcs2 : ({ st with
          HashTable := st.HashTable.set b (cs ++ [a])
          NumUsedSlots := st.NumUsedSlots + (if cs.isEmpty then 1 else 0)
          MaxListLength := max st.MaxListLength cs.length
          NumTotalRecords := st.NumTotalRecords + 1 } : CHashState).HashTable.getD b []
          = cs ++ [a] :=
        getD_set_self _ _ _ hblt
      have hblt2 : b < ({ st with
          HashTable := st.HashTable.set b (cs ++ [a])
          NumUsedSlots := st.NumUsedSlots + (if cs.isEmpty then 1 else 0)
          MaxListLength := max st.MaxListLength cs.length
          NumTotalRecords := st.NumTotalRecords + 1 } : CHashState).HashTable.length := by
        show b < (st.HashTable.set b (cs ++ [a])).length
        rw [List.length_set]
        exact hblt
      rw [ih _ b (cs ++ [a]) hb2 hcs2 hblt2]
      have hae : (cs ++ [a]).isEmpty = false := by rcases cs <;> rfl
      simp only [CHashState.mk.injEq]
      refine ⟨by trivial, ?_, by trivial, ?_, ?_, ?_⟩
      · rw [List.set_set, List.append_assoc]
        rfl
      · by_cases hce : cs.isEmpty = true <;> simp [hae, hce]
      · rcases t with _ | ⟨x, xs⟩
        · simp
        · simp
          omega
      · rw [List.length_cons]
        omega

theorem collStep_nores (st : CHashState) (b s : Nat) (done : List Nat) (k : Nat)
    (hcoll : CollState b done s st) (hb : HashPointer k % s = b)
    (hnotin : k ∉ done) (hlen : done.length + 1 ≤ 5) (hs : 8 ≤ s) :
    (LookupPointer st k).didResize = false ∧
    (LookupPointer st k).state = insertNode st k ∧
    CollState b (done ++ [k]) s (insertNode st k) := by
  obtain ⟨hsize, htable, hslots, hrecs, hmaxL⟩ := hcoll
  have hblt : b < s := by rw [← hb]; exact Nat.mod_lt _ (by omega)
  have hchain : st.HashTable.getD (HashPointer k % st.HashTableSize) []
      = nodesOfKeys done := by
    rw [hsize, hb, htable]
    exact getD_set_self _ _ _ (by rw [List.length_replicate]; exact hblt)
  have hnm := nodes_no_key done k hnotin
  have hf : findRecord st k = none := findRecord_of_chain_none st k _ hchain hnm
  have hins := insertNode_eq_of_chain st k _ hchain hnm
  have h1size : (insertNode st k).HashTableSize = s := by
    rw [insertNode_size, hsize]
  have h1table : (insertNode st k).HashTable =
      (List.replicate s []).set b (nodesOfKeys (done ++ [k])) := by
    rw [hins]
    show st.HashTable.set (HashPointer k % st.HashTableSize)
      (nodesOfKeys done ++ [mkNode k]) = _
    rw [hsize, hb, htable, List.set_set, nodesOfKeys_append]
    rfl
  have h1slots : (insertNode st k).NumUsedSlots = 1 := by
    rw [hins]
    show st.NumUsedSlots + (if (nodesOfKeys done).isEmpty then 1 else 0) = 1
    rw [hslots, nodesOfKeys_isEmpty]
    rcases done with _ | ⟨d, ds⟩ <;> simp
  have h1recs : (insertNode st k).NumTotalRecords = done.length + 1 := by
    rw [insertNode_records, hrecs]
  have h1maxL : (insertNode st k).MaxListLength = done.length := by
    rw [hins]
    show max st.MaxListLength (nodesOfKeys done).length = _
    rw [hmaxL, nodesOfKeys_length]
    omega
  have hnores : ¬ ResizeNeeded (insertNode st k) := by
    rw [ResizeNeeded, h1size, h1slots, h1recs, h1maxL]
    have h45 : 6 ≤ 4 * s / 5 := by
      have h6 : (6:Nat) = 4 * 8 / 5 := by norm_num
      rw [h6]
      exact Nat.div_le_div_right (by omega)
    omega
  have hstep := LookupPointer_insert_nores st k hf hnores
  refine ⟨by rw [hstep], by rw [hstep], h1size, h1table, ?_, ?_, ?_⟩
  · rw [h1slots, show ((done ++ [k]).isEmpty) = false from by rcases done <;> rfl]
    rfl
  · rw [h1recs, List.length_append, List.length_singleton]
  · rw [h1maxL, List.length_append, List.length_singleton]
    omega

theorem collStep_res (st : CHashState) (b b2 s : Nat) (done : List Nat) (k : Nat)
    (hcoll : CollState b done s st) (hb : HashPointer k % s = b)
    (hall2 : ∀ x ∈ done ++ [k], HashPointer x % (s * 2) = b2)
    (hnotin : k ∉ done) (hlen : 5 ≤ done.length) (hs : 0 < s) :
    (LookupPointer st k).didResize = true ∧
    (LookupPointer st k).assertFailed = false ∧
    CollState b2 (done ++ [k]) (s * 2) (LookupPointer st k).state := by
  obtain ⟨hsize, htable, hslots, hrecs, hmaxL⟩ := hcoll
  have hblt : b < s := by rw [← hb]; exact Nat.mod_lt _ hs
  have hchain : st.HashTable.getD (HashPointer k % st.HashTableSize) []
      = nodesOfKeys done := by
    rw [hsize, hb, htable]
    exact getD_set_self _ _ _ (by rw [List.length_replicate]; exact hblt)
  have hnm := nodes_no_key done k hnotin
  have hf : findRecord st k = none := findRecord_of_chain_none st k _ hchain hnm
  have hins := insertNode_eq_of_chain st k _ hchain hnm
  have h1size : (insertNode st k).HashTableSize = s := by
    rw [insertNode_size, hsize]
  have h1table : (insertNode st k).HashTable =
      (List.replicate s []).set b (nodesOfKeys (done ++ [k])) := by
    rw [hins]
    show st.HashTable.set (HashPointer k % st.HashTableSize)
      (nodesOfKeys done ++ [mkNode k]) = _
    rw [hsize, hb, htable, List.set_set, nodesOfKeys_append]
    rfl
  have h1slots : (insertNode st k).NumUsedSlots = 1 := by
    rw [hins]
    show st.NumUsedSlots + (if (nodesOfKeys done).isEmpty then 1 else 0) = 1
    rw [hslots, nodesOfKeys_isEmpty]
    rcases done with _ | ⟨d, ds⟩ <;> simp
  have h1recs : (insertNode st k).NumTotalRecords = done.length + 1 := by
    rw [insertNode_records, hrecs]
  have hres : ResizeNeeded (insertNode st k) := by
    rw [ResizeNeeded, h1slots, h1recs]
    right
    left
    omega
  have hstep := LookupPointer_insert_res st k hf hres
  have hb2lt : b2 < s * 2 := by
    rw [← hall2 k (List.mem_append_right done (List.mem_singleton_self k))]
    exact Nat.mod_lt _ (by omega)
  have hflat : (insertNode st k).HashTable.flatten = nodesOfKeys (done ++ [k]) := by
    rw [h1table]
    exact flatten_replicate_set s b _ hblt
  have hgrow : IncreaseHashTableSize (insertNode st k) =
      (nodesOfKeys (done ++ [k])).foldl migrateNode
        { HashTableSize := s * 2
          HashTable := List.replicate (s * 2) []
          OldHashTable := some { addr := 0, remaining := s * sizeofPtr }
          NumUsedSlots := 0
          MaxListLength := 0
          NumTotalRecords := 0 } := by
    rw [grow_eq_fold, hflat, h1size]
  have hbk : ∀ n ∈ nodesOfKeys (done ++ [k]), HashPointer n.key % (s * 2) = b2 := by
    intro n hn
    obtain ⟨x, hx, rfl⟩ := List.mem_map.mp hn
    exact hall2 x hx
  have hmig := foldMigrate_samebucket (nodesOfKeys (done ++ [k]))
      { HashTableSize := s * 2
        HashTable := List.replicate (s * 2) []
        OldHashTable := some { addr := 0, remaining := s * sizeofPtr }
        NumUsedSlots := 0
        MaxListLength := 0
        NumTotalRecords := 0 }
      b2 [] hbk (getD_replicate_nil _ _)
      (by rw [List.length_replicate]; exact hb2lt)
  have hne : (nodesOfKeys (done ++ [k])).isEmpty = false := by
    rw [nodesOfKeys_isEmpty]
    rcases done <;> rfl
  have hgrec : IncreaseHashTableSize (insertNode st k) =
      { HashTableSize := s * 2
        HashTable := (List.replicate (s * 2) []).set b2 (nodesOfKeys (done ++ [k]))
        OldHashTable := some { addr := 0, remaining := s * sizeofPtr }
        NumUsedSlots := 1
        MaxListLength := (done ++ [k]).length - 1
        NumTotalRecords := (done ++ [k]).length } := by
    rw [hgrow, hmig]
    simp only [CHashState.mk.injEq]
    refine ⟨by trivial, by rw [List.nil_append], by trivial, ?_, ?_, ?_⟩
    · rw [hne]
      simp
    · rw [hne]
      rw [nodesOfKeys_length]
      simp
    · rw [nodesOfKeys_length]
      simp
  have hfound : (findRecord (IncreaseHashTableSize (insertNode st k)) k).isSome = true := by
    rw [findRecord, hgrec]
    show (chainFind (((List.replicate (s * 2) []).set b2
      (nodesOfKeys (done ++ [k]))).getD (HashPointer k % (s * 2)) []) k).isSome = true
    rw [hall2 k (List.mem_append_right done (List.mem_singleton_self k))]
    rw [getD_set_self _ _ _ (by rw [List.length_replicate]; exact hb2lt)]
    rw [chainFind_isSome]
    exact ⟨mkNode k, List.mem_map.mpr ⟨k, List.mem_append_right done
      (List.mem_singleton_self k), rfl⟩, rfl⟩
  refine ⟨hstep.2.1, LookupPointer_res_assert st k hf hres hfound, ?_⟩
  rw [hstep.1, hgrec]
  refine ⟨rfl, rfl, ?_, rfl, rfl⟩
  rw [show ((done ++ [k]).isEmpty) = false from by rcases done <;> rfl]
  rfl

theorem insertAll_coll_phaseA (ks : List Nat) :
    ∀ (done : List Nat) (b s : Nat) (st : CHashState),
      done.length + ks.length ≤ 5 → 8 ≤ s →
      (∀ x ∈ done ++ ks, HashPointer x % s = b) →
      (done ++ ks).Nodup →
      CollState b done s st →
      (insertAll st ks).2 = 0 ∧ CollState b (done ++ ks) s (insertAll st ks).1 := by
  induction ks with
  | nil =>
      intro done b s st _ _ _ _ hcoll
      exact ⟨rfl, by rw [List.append_nil]; exact hcoll⟩
  | cons a t ih =>
      intro done b s st hlen hs hball hnodup hcoll
      have hnotin : a ∉ done := fun hmem =>
        (List.disjoint_of_nodup_append hnodup) hmem (List.mem_cons_self a t)
      have hstep := collStep_nores st b s done a hcoll
        (hball a (List.mem_append_right done (List.mem_cons_self a t)))
        hnotin (by rw [List.length_cons] at hlen; omega) hs
      have hcons := insertAll_cons st a t
      rw [hstep.1, hstep.2.1] at hcons
      rw [if_neg (by simp)] at hcons
      have hlist : (done ++ [a]) ++ t = done ++ a :: t := by
        rw [List.append_assoc]
        rfl
      obtain ⟨i0, i1⟩ := ih (done ++ [a]) b s (insertNode st a)
        (by
          rw [List.length_append, List.length_singleton]
          rw [List.length_cons] at hlen
          omega)
        hs
        (by rw [hlist]; exact hball)
        (by rw [hlist]; exact hnodup)
        hstep.2.2
      rw [hcons]
      constructor
      · show 0 + (insertAll (insertNode st a) t).2 = 0
        rw [i0]
      · show CollState b (done ++ a :: t) s (insertAll (insertNode st a) t).1
        rw [← hlist]
        exact i1

theorem insertAll_coll_phaseB (ks : List Nat) :
    ∀ (done : List Nat) (b s : Nat) (st : CHashState),
      5 ≤ done.length → 0 < s →
      (s * 2 ^ ks.length) ∣ 1024 →
      (∀ x ∈ done ++ ks, ∀ y ∈ done ++ ks,
        HashPointer x % 1024 = HashPointer y % 1024) →
      (done ++ ks).Nodup →
      (∀ x ∈ done ++ ks, HashPointer x % s = b) →
      CollState b done s st →
      (insertAll st ks).2 = ks.length ∧
      ∃ bf, (∀ x ∈ done ++ ks, HashPointer x % (s * 2 ^ ks.length) = bf) ∧
        CollState bf (done ++ ks) (s * 2 ^ ks.length) (insertAll st ks).1 := by
  induction ks with
  | nil =>
      intro done b s st _ _ _ _ _ hball hcoll
      refine ⟨rfl, b, ?_, ?_⟩
      · simpa using hball
      · rw [List.append_nil]
        simpa using hcoll
  | cons a t ih =>
      intro done b s st hlen hs hdvd hcong hnodup hball hcoll
      have hnotin : a ∉ done := fun hmem =>
        (List.disjoint_of_nodup_append hnodup) hmem (List.mem_cons_self a t)
      have hmema : a ∈ done ++ a :: t :=
        List.mem_append_right done (List.mem_cons_self a t)
      have hdvd2 : (s * 2) ∣ 1024 := by
        refine dvd_trans ⟨2 ^ t.length, ?_⟩ hdvd
        rw [List.length_cons, pow_succ]
        ring
      have hallfull : ∀ x ∈ done ++ a :: t, HashPointer x % (s * 2) =
          HashPointer a % (s * 2) := by
        intro x hx
        have hc := hcong x hx a hmema
        rw [← Nat.mod_mod_of_dvd (HashPointer x) hdvd2,
          ← Nat.mod_mod_of_dvd (HashPointer a) hdvd2, hc]
      have hall2 : ∀ x ∈ done ++ [a], HashPointer x % (s * 2) =
          HashPointer a % (s * 2) := by
        intro x hx
        refine hallfull x ?_
        rcases List.mem_append.mp hx with h | h
        · exact List.mem_append_left _ h
        · rw [List.mem_singleton] at h
          subst h
          exact hmema
      have hstep := collStep_res st b (HashPointer a % (s * 2)) s done a hcoll
        (hball a hmema) hall2 hnotin hlen hs
      have hcons := insertAll_cons st a t
      rw [hstep.1] at hcons
      rw [if_pos rfl] at hcons
      have hlist : (done ++ [a]) ++ t = done ++ a :: t := by
        rw [List.append_assoc]
        rfl
      obtain ⟨i0, bf, ibf1, ibf2⟩ := ih (done ++ [a]) (HashPointer a % (s * 2)) (s * 2)
        (LookupPointer st a).state
        (by rw [List.length_append, List.length_singleton]; omega)
        (by omega)
        (by
          rw [show s * 2 * 2 ^ t.length = s * 2 ^ (a :: t).length from by
            rw [List.length_cons, pow_succ]; ring]
          exact hdvd)
        (by
          intro x hx y hy
          rw [hlist] at hx hy
          exact hcong x hx y hy)
        (by rw [hlist]; exact hnodup)
        (by
          intro x hx
          rw [hlist] at hx
          exact hallfull x hx)
        hstep.2.2
      have hmod : s * 2 * 2 ^ t.length = s * 2 ^ (a :: t).length := by
        rw [List.length_cons, pow_succ]
        ring
      rw [hcons]
      constructor
      · show 1 + (insertAll (LookupPointer st a).state t).2 = (a :: t).length
        rw [i0, List.length_cons]
        omega
      · refine ⟨bf, ?_, ?_⟩
        · intro x hx
          rw [← hmod]
          refine ibf1 x ?_
          rw [hlist]
          exact hx
        · show CollState bf (done ++ a :: t) (s * 2 ^ (a :: t).length)
            (insertAll (LookupPointer st a).state t).1
          rw [← hlist, ← hmod]
          exact ibf2

/-- C7 amended: inserting 12 distinct keys that always share one bucket
(hashes congruent modulo 1024, hence colliding at every table size the run
reaches) triggers seven resizes, not one: none during the first five inserts,
the first at the sixth insert (where the probe average 6/1 exceeds 5, while
the chain statistic is still 5 and the slot count 1), and one at every
insert thereafter, ending with table length 1024, one used slot, 12 records,
longest-chain statistic 11, and all 12 keys retrievable. -/
theorem C7_amended_seven_resizes (ks : List Nat) (h12 : ks.length = 12)
    (hnd : ks.Nodup)
    (hcong : ∀ x ∈ ks, ∀ y ∈ ks, HashPointer x % 1024 = HashPointer y % 1024) :
    (insertAll (initState 8) (ks.take 5)).2 = 0 ∧
    (insertAll (initState 8) (ks.take 6)).2 = 1 ∧
    (insertAll (initState 8) ks).2 = 7 ∧
    (insertAll (initState 8) ks).1.HashTableSize = 1024 ∧
    (insertAll (initState 8) ks).1.NumUsedSlots = 1 ∧
    (insertAll (initState 8) ks).1.NumTotalRecords = 12 ∧
    (insertAll (initState 8) ks).1.MaxListLength = 11 ∧
    (∀ a ∈ ks, (findRecord (insertAll (initState 8) ks).1 a).isSome = true) := by
  have h0lt : 0 < ks.length := by omega
  have ha0 : ks.getD 0 0 ∈ ks := by
    rw [List.getD_eq_getElem ks 0 h0lt]
    exact List.getElem_mem h0lt
  have hdvd8 : (8:Nat) ∣ 1024 := by norm_num
  have hmod8 : ∀ x ∈ ks, HashPointer x % 8 = HashPointer (ks.getD 0 0) % 8 := by
    intro x hx
    have hc := hcong x hx (ks.getD 0 0) ha0
    rw [← Nat.mod_mod_of_dvd (HashPointer x) hdvd8,
      ← Nat.mod_mod_of_dvd (HashPointer (ks.getD 0 0)) hdvd8, hc]
  have hAlen : (ks.take 5).length = 5 := by rw [List.length_take]; omega
  have hBlen : (ks.drop 5).length = 7 := by rw [List.length_drop]; omega
  have hsplit : ks.take 5 ++ ks.drop 5 = ks := List.take_append_drop 5 ks
  have hndAB : (ks.take 5 ++ ks.drop 5).Nodup := by rw [hsplit]; exact hnd
  have hsubA : ∀ x ∈ ks.take 5, x ∈ ks := fun x hx => (List.take_sublist 5 ks).subset hx
  have hcoll0 : CollState (HashPointer (ks.getD 0 0) % 8) [] 8 (initState 8) := by
    refine ⟨rfl, ?_, rfl, rfl, rfl⟩
    show (initState 8).HashTable = (List.replicate 8 []).set _ []
    rw [set_replicate_nil]
    rfl
  obtain ⟨pA0, pA1⟩ := insertAll_coll_phaseA (ks.take 5) []
    (HashPointer (ks.getD 0 0) % 8) 8 (initState 8)
    (by rw [hAlen]; simp)
    (by omega)
    (by
      intro x hx
      rw [List.nil_append] at hx
      exact hmod8 x (hsubA x hx))
    (by
      rw [List.nil_append]
      exact List.Nodup.sublist (List.take_sublist 5 ks) hnd)
    hcoll0
  rw [List.nil_append] at pA1
  -- the sixth key and its facts
  have h5lt : 5 < ks.length := by omega
  have h5some : ks[5]? = some (ks.getD 5 0) := by
    rw [List.getElem?_eq_getElem h5lt, List.getD_eq_getElem ks 0 h5lt]
  have htake6 : ks.take 6 = ks.take 5 ++ [ks.getD 5 0] := by
    rw [List.take_succ, h5some]
    rfl
  have hk6mem : ks.getD 5 0 ∈ ks := by
    refine (List.take_sublist 6 ks).subset ?_
    rw [htake6]
    exact List.mem_append_right _ (List.mem_singleton_self _)
  have hnd6 : (ks.take 5 ++ [ks.getD 5 0]).Nodup := by
    rw [← htake6]
    exact List.Nodup.sublist (List.take_sublist 6 ks) hnd
  have hnotin6 : ks.getD 5 0 ∉ ks.take 5 := fun hmem =>
    (List.disjoint_of_nodup_append hnd6) hmem (List.mem_singleton_self _)
  have hdvd16 : (8 * 2 : Nat) ∣ 1024 := by norm_num
  have hall16 : ∀ x ∈ ks.take 5 ++ [ks.getD 5 0],
      HashPointer x % (8 * 2) = HashPointer (ks.getD 5 0) % (8 * 2) := by
    intro x hx
    have hxks : x ∈ ks := by
      refine (List.take_sublist 6 ks).subset ?_
      rw [htake6]
      exact hx
    have hc := hcong x hxks (ks.getD 5 0) hk6mem
    rw [← Nat.mod_mod_of_dvd (HashPointer x) hdvd16,
      ← Nat.mod_mod_of_dvd (HashPointer (ks.getD 5 0)) hdvd16, hc]
  have hstep6 := collStep_res (insertAll (initState 8) (ks.take 5)).1
    (HashPointer (ks.getD 0 0) % 8) (HashPointer (ks.getD 5 0) % (8 * 2)) 8
    (ks.take 5) (ks.getD 5 0) pA1 (hmod8 _ hk6mem) hall16 hnotin6
    (by rw [hAlen]) (by omega)
  have hcount6 : (insertAll (initState 8) (ks.take 6)).2 = 1 := by
    rw [htake6, insertAll_append, pA0]
    rw [insertAll_cons]
    rw [hstep6.1]
    rfl
  -- phase B over the remaining seven keys
  obtain ⟨pB0, bf, hbf, pB1⟩ := insertAll_coll_phaseB (ks.drop 5) (ks.take 5)
    (HashPointer (ks.getD 0 0) % 8) 8 (insertAll (initState 8) (ks.take 5)).1
    (by rw [hAlen])
    (by omega)
    (by rw [hBlen]; norm_num)
    (by
      intro x hx y hy
      rw [hsplit] at hx hy
      exact hcong x hx y hy)
    hndAB
    (by
      intro x hx
      rw [hsplit] at hx
      exact hmod8 x hx)
    pA1
  have hm1024 : 8 * 2 ^ (ks.drop 5).length = 1024 := by rw [hBlen]; norm_num
  rw [hsplit, hm1024] at pB1 hbf
  have hrun : insertAll (initState 8) ks =
      ((insertAll (insertAll (initState 8) (ks.take 5)).1 (ks.drop 5)).1,
        (insertAll (initState 8) (ks.take 5)).2 +
          (insertAll (insertAll (initState 8) (ks.take 5)).1 (ks.drop 5)).2) := by
    rw [← hsplit, insertAll_append]
    rw [hsplit]
  obtain ⟨q1, q2, q3, q4, q5⟩ := pB1
  have hksne : ks.isEmpty = false := by
    rcases ks with _ | ⟨x, xs⟩
    · simp at h12
    · rfl
  refine ⟨pA0, hcount6, ?_, ?_, ?_, ?_, ?_, ?_⟩
  · rw [hrun, pA0, pB0, hBlen]
  · rw [hrun]
    exact q1
  · rw [hrun]
    show (insertAll (insertAll (initState 8) (ks.take 5)).1 (ks.drop 5)).1.NumUsedSlots = 1
    rw [q3, hksne]
    rfl
  · rw [hrun]
    show (insertAll (insertAll (initState 8) (ks.take 5)).1 (ks.drop 5)).1.NumTotalRecords = 12
    rw [q4, h12]
  · rw [hrun]
    show (insertAll (insertAll (initState 8) (ks.take 5)).1 (ks.drop 5)).1.MaxListLength = 11
    rw [q5, h12]
  · intro a ha
    rw [hrun]
    show (chainFind ((insertAll (insertAll (initState 8) (ks.take 5)).1
      (ks.drop 5)).1.HashTable.getD (HashPointer a %
      (insertAll (insertAll (initState 8) (ks.take 5)).1
        (ks.drop 5)).1.HashTableSize) []) a).isSome = true
    rw [q1, q2, hbf a ha]
    rw [getD_set_self _ _ _ (by
      rw [List.length_replicate, ← hbf a ha]
      exact Nat.mod_lt _ (by norm_num))]
    rw [chainFind_isSome]
    exact ⟨mkNode a, List.mem_map.mpr ⟨a, ha, rfl⟩, rfl⟩

set_option maxRecDepth 200000 in
/-- C7 counterexample: the twelve concrete distinct keys of `keys12` all hash
into one bucket (their hashes agree modulo 1024, hence they collide at the
initial size 8 and at every size the doubling sequence reaches), yet the run
performs seven resizes, not one, and the first resize happens at the sixth
insertion, when the chain statistic is only 5. -/
theorem C7_counterexample :
    keys12.length = 12 ∧
    keys12.Nodup ∧
    (∀ a ∈ keys12, ∀ c ∈ keys12, HashPointer a % 1024 = HashPointer c % 1024) ∧
    (∀ a ∈ keys12, ∀ c ∈ keys12, HashPointer a % 8 = HashPointer c % 8) ∧
    (insertAll (initState 8) keys12).2 = 7 ∧
    ¬ ((insertAll (initState 8) keys12).2 = 1) ∧
    (insertAll (initState 8) (keys12.take 5)).2 = 0 ∧
    (insertAll (initState 8) (keys12.take 6)).2 = 1 ∧
    (insertAll (initState 8) (keys12.take 5)).1.MaxListLength = 4 := by
  decide

/-- C7 amended witness: the amended statement at the concrete keys of
`keys12`. -/
theorem C7_amended_witness :
    (keys12.length = 12 ∧ keys12.Nodup ∧
     (∀ x ∈ keys12, ∀ y ∈ keys12, HashPointer x % 1024 = HashPointer y % 1024)) ∧
    ((insertAll (initState 8) (keys12.take 5)).2 = 0 ∧
     (insertAll (initState 8) (keys12.take 6)).2 = 1 ∧
     (insertAll (initState 8) keys12).2 = 7 ∧
     (insertAll (initState 8) keys12).1.HashTableSize = 1024 ∧
     (insertAll (initState 8) keys12).1.NumUsedSlots = 1 ∧
     (insertAll (initState 8) keys12).1.NumTotalRecords = 12 ∧
     (insertAll (initState 8) keys12).1.MaxListLength = 11 ∧
     (∀ a ∈ keys12, (findRecord (insertAll (initState 8) keys12).1 a).isSome = true)) :=
  ⟨⟨by decide, by decide, by decide⟩,
   C7_amended_seven_resizes keys12 (by decide) (by decide) (by decide)⟩
